import Mathlib

/-!
# linux-tcp-socket-cpp: mini-rpc provider and thread pool

A shallow embedding of `mini-rpc/src/rpc_provider.cpp`,
`mini-rpc/include/rpc_provider.h`, `mini-rpc/src/user_service_impl.cpp`,
`thread_pool/thread_pool.h`, `thread_pool_demo/ThreadPool.h` and
`socket_tcp_server_multi_thread/tcp_server_multithread.cpp`, with the
properties of the request/response framing, the service map, the worker
queue, the echo task and the admission test proved about it.

Conventions of the embedding:

* a `char` is a `Fin 256`, a `std::string` (which may hold NUL bytes) is a list of them;
* a `uint32_t` is a `Nat` reduced `% 2 ^ 32`; `size_t` is 64 bits wide, and the
  offsets computed by the parser stay below `2 ^ 34`, so they never wrap;
* `memcpy` between a `uint32_t` and a `char` array uses the byte order of the
  host, which is a parameter (`ByteOrder`) of every definition that does it;
* a read outside the `char buffer[4096]` array has no defined result in C++:
  the embedding returns `none` for it and goes no further.
-/

namespace MiniRpc

/-! ## Bytes and host byte order -/

/-- One `char` of a buffer or of a `std::string`. -/
abbrev Byte := Fin 256

/-- A `std::string`, or the contents of a `char` array. -/
abbrev Bytes := List Byte

/-- Byte order of the host, as seen by `memcpy` on a `uint32_t`. -/
inductive ByteOrder
  | little
  | big
  deriving DecidableEq, Repr

/-- The four bytes of the object representation of a `uint32_t` holding `v`
(`(char*)&len` in `SendResponse`); `v` is first reduced to 32 bits, as the
initialisation `uint32_t len = resp_str.size()` does. -/
def storeU32 (o : ByteOrder) (v : Nat) : Bytes :=
  let w := v % 2 ^ 32
  let b0 : Byte := ⟨w % 256, Nat.mod_lt _ (by decide)⟩
  let b1 : Byte := ⟨w / 256 % 256, Nat.mod_lt _ (by decide)⟩
  let b2 : Byte := ⟨w / 65536 % 256, Nat.mod_lt _ (by decide)⟩
  let b3 : Byte := ⟨w / 16777216 % 256, Nat.mod_lt _ (by decide)⟩
  match o with
  | .little => [b0, b1, b2, b3]
  | .big => [b3, b2, b1, b0]

/-- The `uint32_t` whose object representation is the four bytes given. -/
def u32OfBytes (o : ByteOrder) (b0 b1 b2 b3 : Byte) : Nat :=
  match o with
  | .little => b0.val + 256 * b1.val + 65536 * b2.val + 16777216 * b3.val
  | .big => b3.val + 256 * b2.val + 65536 * b1.val + 16777216 * b0.val

/-! ## The receive buffer -/

/-- Size of `char buffer[4096]` in `RpcProvider::OnMessage`. -/
def BUFFER_SIZE : Nat := 4096

/-- What one call of `recv` gives back. -/
inductive RecvResult
  /-- `recv` returned a negative value. -/
  | failed
  /-- `recv` stored these bytes and returned their number (none: the peer shut down). -/
  | bytes (rx : Bytes)
  deriving DecidableEq, Repr

/-- The value `n` returned by `recv(connfd, buffer, sizeof(buffer), 0)`: at most
`sizeof(buffer)` bytes are taken. -/
def recvCount : RecvResult → Int
  | .failed => -1
  | .bytes rx => (min rx.length BUFFER_SIZE : Nat)

/-- The array `char buffer[4096] = {0}` after `recv` wrote into it: the bytes
received, then the zeros of the initialiser. -/
def recvBuffer : RecvResult → Bytes
  | .failed => List.replicate BUFFER_SIZE 0
  | .bytes rx => rx.take BUFFER_SIZE ++ List.replicate (BUFFER_SIZE - rx.length) 0

/-- Reading `len` bytes of the array starting at `buffer + off`, as the
constructor `std::string(buffer + off, len)` does. A read that leaves the
array has no defined result. -/
def readBytes (buffer : Bytes) (off len : Nat) : Option Bytes :=
  if off + len ≤ buffer.length then some ((buffer.drop off).take len) else none

/-- Reading the array that `recv` left without building its 4096 cells: the
bytes received, and a zero at every other offset below `BUFFER_SIZE`. It is
proved equal to `readBytes` on `recvBuffer` and serves to evaluate examples. -/
def readPadded (rx : Bytes) (off len : Nat) : Option Bytes :=
  if off + len ≤ BUFFER_SIZE then
    some ((List.range len).map (fun i => (rx.take BUFFER_SIZE).getD (off + i) 0))
  else none

/-- The call `memcpy(&x, buffer + off, sizeof(uint32_t))` for a `uint32_t x`;
`read off len` gives the `len` bytes of the array that start at `buffer + off`. -/
def loadU32 (o : ByteOrder) (read : Nat → Nat → Option Bytes) (off : Nat) : Option Nat :=
  match read off 4 with
  | some [b0, b1, b2, b3] => some (u32OfBytes o b0 b1 b2 b3)
  | _ => none

/-! ## Request parsing (`rpc_provider.cpp`, lines 96-108) -/

/-- The three strings built by the parsing code of `OnMessage`. -/
structure Request where
  service_name : Bytes
  method_name : Bytes
  req_data_str : Bytes
  deriving DecidableEq, Repr

/-- A stretch of the buffer that the parser read: first offset and length. -/
abbrev Extent := Nat × Nat

/-- Outcome of the parsing code: every read of the buffer it made, in order,
and the strings it built (`none` when a read left the array). -/
structure ParseRun where
  reads : List Extent
  result : Option Request
  deriving DecidableEq, Repr

/-- The parsing code of `RpcProvider::OnMessage`, with `read off len` giving
the `len` bytes of the array that start at `buffer + off`. No length read from
the buffer is compared with `n` or with the size of the buffer. -/
def parseFields (o : ByteOrder) (read : Nat → Nat → Option Bytes) : ParseRun :=
  -- memcpy(&service_name_len, buffer, sizeof(uint32_t));
  match loadU32 o read 0 with
  | none => ⟨[(0, 4)], none⟩
  | some service_name_len =>
  -- std::string service_name(buffer + sizeof(uint32_t), service_name_len);
  match read 4 service_name_len with
  | none => ⟨[(0, 4), (4, service_name_len)], none⟩
  | some service_name =>
  -- size_t offset = sizeof(uint32_t) + service_name_len;
  let offset := 4 + service_name_len
  -- memcpy(&method_name_len, buffer + offset, sizeof(uint32_t));
  match loadU32 o read offset with
  | none => ⟨[(0, 4), (4, service_name_len), (offset, 4)], none⟩
  | some method_name_len =>
  -- std::string method_name(buffer + offset + sizeof(uint32_t), method_name_len);
  match read (offset + 4) method_name_len with
  | none => ⟨[(0, 4), (4, service_name_len), (offset, 4), (offset + 4, method_name_len)], none⟩
  | some method_name =>
  -- offset += sizeof(uint32_t) + method_name_len;
  let offset2 := offset + (4 + method_name_len)
  -- memcpy(&req_data_len, buffer + offset, sizeof(uint32_t));
  match loadU32 o read offset2 with
  | none =>
    ⟨[(0, 4), (4, service_name_len), (offset, 4), (offset + 4, method_name_len),
      (offset2, 4)], none⟩
  | some req_data_len =>
  -- std::string req_data_str(buffer + offset + sizeof(uint32_t), req_data_len);
  match read (offset2 + 4) req_data_len with
  | none =>
    ⟨[(0, 4), (4, service_name_len), (offset, 4), (offset + 4, method_name_len),
      (offset2, 4), (offset2 + 4, req_data_len)], none⟩
  | some req_data_str =>
    ⟨[(0, 4), (4, service_name_len), (offset, 4), (offset + 4, method_name_len),
      (offset2, 4), (offset2 + 4, req_data_len)],
     some ⟨service_name, method_name, req_data_str⟩⟩

/-- The parsing code of `RpcProvider::OnMessage` on the array `buffer`. -/
def parseRequest (o : ByteOrder) (buffer : Bytes) : ParseRun :=
  parseFields o (readBytes buffer)

/-- Modelled from the spec: the request encoder, which the sources do not
contain (they hold the server side only). One field of a frame is a 4-byte
length followed by exactly that many bytes. -/
def encodeField (o : ByteOrder) (field : Bytes) : Bytes :=
  storeU32 o field.length ++ field

/-- Modelled from the spec: the request encoder, which the sources do not
contain. A request frame is the three fields service_name, method_name,
payload, in that order. -/
def encodeRequest (o : ByteOrder) (service_name method_name payload : Bytes) : Bytes :=
  encodeField o service_name ++ (encodeField o method_name ++ encodeField o payload)

/-! ## The service map (`rpc_provider.h`) -/

/-- A `std::map<K, V>` as the list of its entries, each key at most once.
Only `find` and `operator[]` are used on it, and neither observes the order
of the entries. -/
abbrev StdMap (κ ν : Type) := List (κ × ν)

/-- The call `m.find(k)`: the mapped value when there is one (`none` is `m.end()`). -/
def StdMap.find {κ ν : Type} [DecidableEq κ] : StdMap κ ν → κ → Option ν
  | [], _ => none
  | (k', v) :: rest, k => if k' = k then some v else StdMap.find rest k

/-- The call `m[k]`: when `k` has no entry, one is inserted with a
value-initialised mapped value (`dflt`); the result is the map afterwards and
the mapped value referred to. -/
def StdMap.subscript {κ ν : Type} [DecidableEq κ] (m : StdMap κ ν) (k : κ) (dflt : ν) :
    StdMap κ ν × ν :=
  match StdMap.find m k with
  | some v => (m, v)
  | none => (m ++ [(k, dflt)], dflt)

/-- A write through the reference that `m[k]` returned: the entry of `k` gets
the value `v`. -/
def StdMap.assign {κ ν : Type} [DecidableEq κ] : StdMap κ ν → κ → ν → StdMap κ ν
  | [], _, _ => []
  | (k', v') :: rest, k, v =>
    if k' = k then (k', v) :: rest else (k', v') :: StdMap.assign rest k v

/-- What a handler does inside `CallMethod`, one step at a time. -/
inductive HandlerAction (σ : Type)
  /-- A write to the fields of `*response`. -/
  | write (f : σ → σ)
  /-- The call `done->Run()`. -/
  | Run
  /-- An exception thrown by the handler. -/
  | raise

/-- A service object (`google::protobuf::Service`), with what the framework
asks of it. Request messages are values of `ρ`, response messages values of
`σ`; the protobuf codec and the handler bodies are supplied from outside. -/
structure Service (ρ σ : Type) where
  /-- Address of the object: two pointers are equal when this is. -/
  addr : Nat
  /-- The value of `GetDescriptor()->name()`. -/
  name : Bytes
  /-- The values of `GetDescriptor()->method(i)->name()`, for `i` from 0 to `method_count() - 1`. -/
  methods : List Bytes
  /-- The call `request->ParseFromString(req_data_str)` on the fresh message
  made by `GetRequestPrototype(md).New()`; the first argument names the method. -/
  ParseFromString : Bytes → Bytes → Option ρ
  /-- The fresh message made by `GetResponsePrototype(md).New()`. -/
  ResponsePrototype : Bytes → σ
  /-- The handler that `CallMethod(md, nullptr, request, response, done)` runs,
  with a `done` that is not null. -/
  CallMethod : Bytes → ρ → List (HandlerAction σ)
  /-- The call `response->SerializeToString(&resp_str)`. -/
  SerializeToString : σ → Option Bytes

/-- The member `service_map_`: service name -> (method name -> service object
pointer). A null pointer is `none`. -/
abbrev ServiceMap (ρ σ : Type) := StdMap Bytes (StdMap Bytes (Option (Service ρ σ)))

/-- The body of the loop of `NotifyService`, for the method named `method_name`:
the statement `service_map_[service_name][method_name] = service;`. -/
def registerMethod {ρ σ : Type} (service_map_ : ServiceMap ρ σ) (service : Service ρ σ)
    (method_name : Bytes) : ServiceMap ρ σ :=
  let service_name := service.name
  let (map1, inner) := StdMap.subscript service_map_ service_name []
  let (inner1, _) := StdMap.subscript inner method_name none
  let inner2 := StdMap.assign inner1 method_name (some service)
  StdMap.assign map1 service_name inner2

/-- The method `RpcProvider::NotifyService`: the loop over the methods of the
service descriptor. It returns `void`: no registration is refused. -/
def NotifyService {ρ σ : Type} (service_map_ : ServiceMap ρ σ) (service : Service ρ σ) :
    ServiceMap ρ σ :=
  service.methods.foldl (fun m method_name => registerMethod m service method_name)
    service_map_

/-- The lookup of `OnMessage` (lines 112-116) taken alone, as a pure function:
the pointer stored for the pair, or `none` when one of the two `find` calls
gives `end()`. -/
def resolve {ρ σ : Type} (service_map_ : ServiceMap ρ σ) (service_name method_name : Bytes) :
    Option (Option (Service ρ σ)) :=
  match StdMap.find service_map_ service_name with
  | none => none
  | some method_map => StdMap.find method_map method_name

/-! ## Serving one request (`rpc_provider.cpp`) -/

/-- What the provider does that can be seen from outside or that a claim
speaks of. The lines printed by `LOG_INFO` are left out. -/
inductive Event
  /-- A call of `accept` and the descriptor it returned. -/
  | accept (connfd : Int)
  /-- A call of `recv` and the count it returned. -/
  | recv (connfd : Nat) (n : Int)
  /-- `GetRequestPrototype(md).New()`. -/
  | New_request
  /-- `GetResponsePrototype(md).New()`. -/
  | New_response
  /-- `service->CallMethod(md, nullptr, request, response, done)`. -/
  | CallMethod (service : Nat) (method_name : Bytes)
  /-- A call of `send` with the bytes handed to it. -/
  | send (connfd : Nat) (data : Bytes)
  /-- `delete request`. -/
  | delete_request
  /-- `delete response`. -/
  | delete_response
  /-- A call of `close`. -/
  | close (connfd : Nat)
  deriving DecidableEq, Repr

/-- How a piece of code ended. -/
inductive Completion
  /-- It returned to its caller. -/
  | returned
  /-- An exception left it. -/
  | threw
  /-- It did something C++ gives no meaning to (a read outside the buffer, a
  null pointer followed, an object used after `delete`). -/
  | undefined
  /-- It waits in a call that has not returned (`accept`, `recv`). -/
  | blocked
  deriving DecidableEq, Repr

/-- The method `RpcProvider::SendResponse`: on a successful serialisation the
two `send` calls, then `delete response` in both cases. The count given to the
second `send` is the `uint32_t len`. -/
def SendResponse {ρ σ : Type} (o : ByteOrder) (service : Service ρ σ) (connfd : Nat)
    (response : σ) : List Event :=
  match service.SerializeToString response with
  | some resp_str =>
    -- uint32_t len = resp_str.size();
    let len := resp_str.length % 2 ^ 32
    [Event.send connfd (storeU32 o len), Event.send connfd (resp_str.take len),
      Event.delete_response]
  | none => [Event.delete_response]

/-- The handler run by `CallMethod`, step by step. `pending` says that the
closure `done` has not run yet, so that `*response` still exists: the closure
made by `NewCallback` deletes itself when it runs, and `SendResponse` deletes
the response. -/
def runHandler {ρ σ : Type} (o : ByteOrder) (service : Service ρ σ) (connfd : Nat) :
    List (HandlerAction σ) → σ → Bool → List Event × Completion
  | [], _, _ => ([], .returned)
  | .write f :: rest, response, pending =>
    if pending then runHandler o service connfd rest (f response) pending
    else ([], .undefined)
  | .Run :: rest, response, pending =>
    if pending then
      let sent := SendResponse o service connfd response
      let (events, completion) := runHandler o service connfd rest response false
      (sent ++ events, completion)
    else ([], .undefined)
  | .raise :: _, _, _ => ([], .threw)

/-- Result of `OnMessage` or of `Run`: the map afterwards, what was done, and
how the function ended. -/
structure Outcome (ρ σ : Type) where
  service_map_ : ServiceMap ρ σ
  events : List Event
  completion : Completion

/-- The method `RpcProvider::OnMessage`, for a connection whose `recv` call
gives `rcv`. -/
def OnMessage {ρ σ : Type} (o : ByteOrder) (service_map_ : ServiceMap ρ σ) (connfd : Nat)
    (rcv : RecvResult) : Outcome ρ σ :=
  -- int n = recv(connfd, buffer, sizeof(buffer), 0);
  let n := recvCount rcv
  let received := [Event.recv connfd n]
  -- if (n <= 0) return;
  if n ≤ 0 then ⟨service_map_, received, .returned⟩ else
  match (parseRequest o (recvBuffer rcv)).result with
  | none => ⟨service_map_, received, .undefined⟩
  | some req =>
  -- if (service_map_.find(service_name) == service_map_.end()) return;
  match StdMap.find service_map_ req.service_name with
  | none => ⟨service_map_, received, .returned⟩
  | some _ =>
  -- auto& method_map = service_map_[service_name];
  let (map1, method_map) := StdMap.subscript service_map_ req.service_name []
  -- if (method_map.find(method_name) == method_map.end()) return;
  match StdMap.find method_map req.method_name with
  | none => ⟨map1, received, .returned⟩
  | some _ =>
  -- google::protobuf::Service* service = method_map[method_name];
  let (method_map1, service) := StdMap.subscript method_map req.method_name none
  let map2 := StdMap.assign map1 req.service_name method_map1
  match service with
  | none => ⟨map2, received, .undefined⟩
  | some service =>
  -- const MethodDescriptor* md = sd->FindMethodByName(method_name);
  if req.method_name ∉ service.methods then ⟨map2, received, .undefined⟩ else
  -- request = service->GetRequestPrototype(md).New(); response = ...
  let created := received ++ [Event.New_request, Event.New_response]
  -- if (!request->ParseFromString(req_data_str)) { delete request; delete response; return; }
  match service.ParseFromString req.method_name req.req_data_str with
  | none => ⟨map2, created ++ [Event.delete_request, Event.delete_response], .returned⟩
  | some request =>
  -- service->CallMethod(md, nullptr, request, response, done);
  let (handled, completion) :=
    runHandler o service connfd (service.CallMethod req.method_name request)
      (service.ResponsePrototype req.method_name) true
  let called := created ++ [Event.CallMethod service.addr req.method_name] ++ handled
  match completion with
  -- delete request;
  | .returned => ⟨map2, called ++ [Event.delete_request], .returned⟩
  | c => ⟨map2, called, c⟩

/-- What one call of `accept` gives back. -/
inductive AcceptResult
  /-- `accept` returned a negative value. -/
  | failed
  /-- `accept` returned `connfd`; `incoming` holds what the successive `recv`
  calls on this connection would give. -/
  | conn (connfd : Nat) (incoming : List RecvResult)
  deriving DecidableEq, Repr

/-- The loop of `RpcProvider::Run` (step 4), after `socket`, `bind` and `listen`
succeeded, over the connections that `accept` delivers. The loop has no exit:
when the list is used up the server waits in `accept`. -/
def Run {ρ σ : Type} (o : ByteOrder) : ServiceMap ρ σ → List AcceptResult → Outcome ρ σ
  | service_map_, [] => ⟨service_map_, [], .blocked⟩
  | service_map_, .failed :: rest =>
    -- if (connfd < 0) { perror("accept failed"); continue; }
    let out := Run o service_map_ rest
    ⟨out.service_map_, Event.accept (-1) :: out.events, out.completion⟩
  | service_map_, .conn connfd [] :: _ =>
    ⟨service_map_, [Event.accept connfd], .blocked⟩
  | service_map_, .conn connfd (rcv :: _) :: rest =>
    -- OnMessage(connfd);
    let served := OnMessage o service_map_ connfd rcv
    match served.completion with
    | .returned =>
      -- close(connfd);
      let out := Run o served.service_map_ rest
      ⟨out.service_map_,
        Event.accept connfd :: (served.events ++ Event.close connfd :: out.events),
        out.completion⟩
    | c => ⟨served.service_map_, Event.accept connfd :: served.events, c⟩

/-- The bytes handed to `send` on the connection `connfd`, in order. -/
def written (connfd : Nat) : List Event → Bytes
  | [] => []
  | .send fd data :: rest => if fd = connfd then data ++ written connfd rest else written connfd rest
  | _ :: rest => written connfd rest

/-- The number of `recv` calls made on the connection `connfd`. -/
def recvCalls (connfd : Nat) : List Event → Nat
  | [] => 0
  | .recv fd _ :: rest => if fd = connfd then recvCalls connfd rest + 1 else recvCalls connfd rest
  | _ :: rest => recvCalls connfd rest

/-! ## The login service (`user_service_impl.cpp`) -/

/-- The fields of `fixbug::LoginRequest` that `Login` reads. -/
structure LoginRequest where
  name : String
  pwd : String
  deriving DecidableEq, Repr

/-- The fields of `fixbug::LoginResponse` that `Login` writes. -/
structure LoginResponse where
  code : Int
  msg : String
  deriving DecidableEq, Repr

/-- The method `UserServiceImpl::Login`; `done_set` says that `done` is not null. -/
def Login (request : LoginRequest) (done_set : Bool) : List (HandlerAction LoginResponse) :=
  let name := request.name
  let pwd := request.pwd
  let decided : List (HandlerAction LoginResponse) :=
    if name = "zhangsan" ∧ pwd = "123456" then
      [.write (fun response => { response with code := 0 }),
       .write (fun response => { response with msg := "Login successful!" })]
    else
      [.write (fun response => { response with code := 1 }),
       .write (fun response => { response with msg := "Invalid username or password." })]
  -- if (done != nullptr) { done->Run(); }
  decided ++ (if done_set then [.Run] else [])

/-- The bytes of a string of ASCII characters. -/
def ascii (s : String) : Bytes :=
  s.toList.map (fun c => ⟨c.toNat % 256, Nat.mod_lt _ (by decide)⟩)

/-- An object of class `UserServiceImpl`. The class generated from `user.proto`
and the protobuf codec are not among the sources: the name in the service
descriptor and the two codec functions are parameters, and `Login` is the one
method, as it is the one override. -/
def UserServiceImpl (addr : Nat) (name : Bytes) (parse : Bytes → Option LoginRequest)
    (serialize : LoginResponse → Option Bytes) : Service LoginRequest LoginResponse where
  addr := addr
  name := name
  methods := [ascii "Login"]
  ParseFromString := fun _ req_data_str => parse req_data_str
  ResponsePrototype := fun _ => ⟨0, ""⟩
  CallMethod := fun _ request => Login request true
  SerializeToString := serialize

/-! ## A concrete service for the examples -/

/-- The string whose characters have the codes given. -/
def text (data : Bytes) : String := String.mk (data.map (fun c => Char.ofNat c.val))

/-- A stand-in for the protobuf decoding of `fixbug::LoginRequest`, which is not
among the sources, used to run examples: the name, a zero byte, the password.
Data without a zero byte do not parse. -/
def demoParse (data : Bytes) : Option LoginRequest :=
  match data.span (fun c => c != 0) with
  | (name, _ :: pwd) => some ⟨text name, text pwd⟩
  | (_, []) => none

/-- A stand-in for the protobuf encoding of `fixbug::LoginResponse`, used to run
examples: one byte for the code, then the message. -/
def demoSerialize (response : LoginResponse) : Option Bytes :=
  some (⟨response.code.toNat % 256, Nat.mod_lt _ (by decide)⟩ :: ascii response.msg)

/-- A `UserServiceImpl` object at address `addr`, named `UserService`. -/
def demoService (addr : Nat) : Service LoginRequest LoginResponse :=
  UserServiceImpl addr (ascii "UserService") demoParse demoSerialize

/-- The service map after `NotifyService(&service)` on one `UserServiceImpl` object. -/
def demoMap : ServiceMap LoginRequest LoginResponse := NotifyService [] (demoService 1)

/-- A request frame of a little-endian client for `UserService`/`Login` with the
payload `zhangsan`, zero, `123456`. -/
def loginFrame : Bytes :=
  [11, 0, 0, 0, 85, 115, 101, 114, 83, 101, 114, 118, 105, 99, 101,
   5, 0, 0, 0, 76, 111, 103, 105, 110,
   15, 0, 0, 0, 122, 104, 97, 110, 103, 115, 97, 110, 0, 49, 50, 51, 52, 53, 54]

/-- A request frame for `UserService`/`Login` with the two-byte payload `a`, zero
(declared length 2), cut after 29 bytes: the last byte of the payload is missing. -/
def truncatedFrame : Bytes :=
  [11, 0, 0, 0, 85, 115, 101, 114, 83, 101, 114, 118, 105, 99, 101,
   5, 0, 0, 0, 76, 111, 103, 105, 110,
   2, 0, 0, 0, 97]

/-- A complete request frame naming the service `Auth`, which is not registered. -/
def unknownServiceFrame : Bytes :=
  [4, 0, 0, 0, 65, 117, 116, 104,
   5, 0, 0, 0, 76, 111, 103, 105, 110,
   1, 0, 0, 0, 0]

/-- A complete request frame for `UserService`/`Login` whose payload `abc` has no
zero byte, so that `demoParse` rejects it. -/
def unparsableFrame : Bytes :=
  [11, 0, 0, 0, 85, 115, 101, 114, 83, 101, 114, 118, 105, 99, 101,
   5, 0, 0, 0, 76, 111, 103, 105, 110,
   3, 0, 0, 0, 97, 98, 99]

/-- A service object named `UserService` whose `Login` handler throws an
exception before it touches the response or runs `done`, for the examples. -/
def throwingService (addr : Nat) : Service LoginRequest LoginResponse :=
  { UserServiceImpl addr (ascii "UserService") demoParse demoSerialize with
    CallMethod := fun _ _ => [.raise] }

end MiniRpc

/-! ## The thread pool (`thread_pool/thread_pool.h`) -/

namespace Pool

/-- The members of `ThreadPool` that the lock `m_mutex` protects: the queue
`jobs` (its front is the head of the list) and the flag `stop`. Every
definition below is one section of code run with the lock held. -/
structure ThreadPool (Job : Type) where
  jobs : List Job
  stop : Bool
  deriving DecidableEq, Repr

/-- The pool as the constructor leaves it: `stop{false}`, an empty queue. -/
def ThreadPool.create {Job : Type} : ThreadPool Job := ⟨[], false⟩

/-- The pool as the constructor of `thread_pool_demo/ThreadPool.cc` leaves it:
an empty queue, and a `stop` that has no initialiser, so that its value is
whatever the memory of the object held (`stop`). -/
def ThreadPool.createDemo {Job : Type} (stop : Bool) : ThreadPool Job := ⟨[], stop⟩

/-- The method `ThreadPool::enqueue`: `jobs.emplace(f)` at the back of the queue. -/
def enqueue {Job : Type} (pool : ThreadPool Job) (f : Job) : ThreadPool Job :=
  { pool with jobs := pool.jobs ++ [f] }

/-- The method `ThreadPool::submit` of `thread_pool_demo/ThreadPool.h`, the same
code under another name: `jobs.emplace(job)` at the back of the queue. -/
def submit {Job : Type} (pool : ThreadPool Job) (job : Job) : ThreadPool Job :=
  { pool with jobs := pool.jobs ++ [job] }

/-- The locked section of `ThreadPool::~ThreadPool`: `stop = true`. -/
def destroy {Job : Type} (pool : ThreadPool Job) : ThreadPool Job :=
  { pool with stop := true }

/-- What a worker leaves its locked section with. -/
inductive Taken (Job : Type)
  /-- The predicate of `m_condition.wait` is false: the worker keeps waiting. -/
  | waits
  /-- The worker saw `stop` and returned. -/
  | exits
  /-- The worker took this task from the front of the queue, and runs it next. -/
  | task (f : Job)
  deriving DecidableEq, Repr

/-- The locked section of the worker loop. -/
def worker {Job : Type} (pool : ThreadPool Job) : ThreadPool Job × Taken Job :=
  -- m_condition.wait(lock, [this](){ return !jobs.empty() || stop; });
  if !(!pool.jobs.isEmpty || pool.stop) then (pool, .waits)
  -- if (stop) { return; }
  else if pool.stop then (pool, .exits)
  else
    -- task = std::move(jobs.front()); jobs.pop();
    match pool.jobs with
    | task :: rest => ({ pool with jobs := rest }, .task task)
    | [] => (pool, .waits)

/-- One locked section, run by the thread that holds the lock. -/
inductive Op (Job : Type)
  /-- A call of `enqueue(f)`. -/
  | enqueue (f : Job)
  /-- A call of `submit(job)`, as `main` of `ThreadPool-test.cc` makes. -/
  | submit (job : Job)
  /-- A pass of worker number `i` through its loop. -/
  | worker (i : Nat)
  /-- The destructor setting `stop`. -/
  | destroy
  deriving DecidableEq, Repr

/-- The pool after the locked sections `ops` ran in this order, with the
tasks taken from the queue so far (oldest first) and the worker that took each. -/
def runOps {Job : Type} : ThreadPool Job → List (Op Job) → ThreadPool Job × List (Nat × Job)
  | pool, [] => (pool, [])
  | pool, .enqueue f :: ops => runOps (enqueue pool f) ops
  | pool, .submit job :: ops => runOps (submit pool job) ops
  | pool, .destroy :: ops => runOps (destroy pool) ops
  | pool, .worker i :: ops =>
    match worker pool with
    | (pool1, .task f) =>
      let (pool2, taken) := runOps pool1 ops
      (pool2, (i, f) :: taken)
    | (pool1, _) => runOps pool1 ops

/-- The arguments of the `enqueue` and `submit` calls among `ops`, in order. -/
def enqueued {Job : Type} : List (Op Job) → List Job
  | [] => []
  | .enqueue f :: ops => f :: enqueued ops
  | .submit job :: ops => job :: enqueued ops
  | _ :: ops => enqueued ops

end Pool

/-! ## The echo task of the thread-pool server (`thread_pool/thread_pool.h`) -/

namespace PoolServer

open MiniRpc (Bytes RecvResult Completion)

/-- The constant `BUFFER_SIZE` of `thread_pool.h`. -/
def BUFFER_SIZE : Nat := 1024

/-- What `client_handler_task` does on its connection. The lines printed on
`std::cout` are left out. -/
inductive Event
  /-- A call of `recv` and the count it returned. -/
  | recv (client_fd : Nat) (bytes_num : Int)
  /-- A call of `send` with the bytes handed to it. -/
  | send (client_fd : Nat) (data : Bytes)
  /-- A call of `close`. -/
  | close (client_fd : Nat)
  deriving DecidableEq, Repr

/-- The value `bytes_num` returned by `recv(client_fd, buffer, BUFFER_SIZE, 0)`. -/
def recvCount : RecvResult → Int
  | .failed => -1
  | .bytes rx => (min rx.length BUFFER_SIZE : Nat)

/-- The array `buffer` after `memset(buffer, 0, BUFFER_SIZE)` and `recv`. -/
def recvBuffer : RecvResult → Bytes
  | .failed => List.replicate BUFFER_SIZE 0
  | .bytes rx => rx.take BUFFER_SIZE ++ List.replicate (BUFFER_SIZE - rx.length) 0

/-- The loop `while (true)` of `client_handler_task`, over what the successive
`recv` calls on the connection give. When the list is used up the task waits
in `recv`. -/
def echoLoop (client_fd : Nat) : List RecvResult → List Event × Completion
  | [] => ([], .blocked)
  | rcv :: rest =>
    -- int bytes_num = recv(client_fd, buffer, BUFFER_SIZE, 0);
    let bytes_num := recvCount rcv
    -- if (bytes_num <= 0) { ...; break; }
    if bytes_num ≤ 0 then ([Event.recv client_fd bytes_num], .returned)
    else
      -- send(client_fd, buffer, bytes_num, 0);
      let sent := Event.send client_fd ((recvBuffer rcv).take bytes_num.toNat)
      let (events, completion) := echoLoop client_fd rest
      (Event.recv client_fd bytes_num :: sent :: events, completion)

/-- The echo that the claim describes, written from its words: for each chunk
received, in order, one `recv` giving its size and one `send` of exactly its
bytes. -/
def expectedEcho (client_fd : Nat) : List Bytes → List Event
  | [] => []
  | chunk :: chunks =>
    Event.recv client_fd (chunk.length : Nat) :: Event.send client_fd chunk ::
      expectedEcho client_fd chunks

/-- Result of `client_handler_task`: the counter afterwards, what was done on
the connection, and how the task ended. -/
structure TaskRun where
  g_client_count : Int
  events : List Event
  completion : Completion
  deriving DecidableEq, Repr

/-- The function `client_handler_task`, started with the counter at
`g_client_count`, on the connection `client_fd`. -/
def client_handler_task (g_client_count : Int) (client_fd : Nat)
    (reads : List RecvResult) : TaskRun :=
  -- g_client_count++;
  let counted := g_client_count + 1
  match echoLoop client_fd reads with
  -- close(client_fd); g_client_count--;
  | (events, .returned) => ⟨counted - 1, events ++ [Event.close client_fd], .returned⟩
  | (events, completion) => ⟨counted, events, completion⟩

end PoolServer

/-! ## The multi-thread server (`socket_tcp_server_multi_thread/tcp_server_multithread.cpp`) -/

namespace MultiThread

/-- The constant `THREAD_LIMIT`. -/
def THREAD_LIMIT : Int := 10

/-- What the accept loop and the ends of the handler threads do to sockets
and threads. -/
inductive Event
  /-- A call of `accept` and the descriptor it returned. -/
  | accept (client_fd : Int)
  /-- The call `close(sockfd)` on the listening socket. -/
  | close_sockfd
  /-- The call `close(client_fd)`. -/
  | close (client_fd : Int)
  /-- A thread started on `client_handler` for this connection. -/
  | thread (client_fd : Nat)
  /-- The call `exit(1)`. -/
  | exit
  deriving DecidableEq, Repr

/-- The state of the server process once `listen` succeeded. -/
structure Server where
  /-- The atomic counter `g_client_count`. -/
  g_client_count : Int
  /-- The listening socket `sockfd` is open. -/
  listening : Bool
  /-- The connections that have a running `client_handler` thread. -/
  handlers : List Nat
  /-- The process has called `exit(1)`. -/
  exited : Bool
  /-- What was done so far, oldest first. -/
  events : List Event
  deriving DecidableEq, Repr

/-- The server entering the loop of `tcp_server`. -/
def Server.start : Server := ⟨0, true, [], false, []⟩

/-- One pass through the loop `while (true)` of `tcp_server`. `incoming` is the
connection that the network offers (`none`: `accept` fails by itself); on a
listening socket that was closed, `accept` fails whatever is offered. -/
def acceptPass (s : Server) (incoming : Option Nat) : Server :=
  if s.exited then s else
  -- client_fd = accept(sockfd, ...);
  let client_fd : Option Nat := if s.listening then incoming else none
  match client_fd with
  | none =>
    -- if (client_fd == -1) { close(sockfd); close(client_fd); exit(1); }
    { s with listening := false, handlers := [], exited := true,
             events := s.events ++ [.accept (-1), .close_sockfd, .close (-1), .exit] }
  | some client_fd =>
    -- if (g_client_count > THREAD_LIMIT) { close(sockfd); close(client_fd); continue; }
    if s.g_client_count > THREAD_LIMIT then
      { s with listening := false,
               events := s.events ++ [.accept client_fd, .close_sockfd, .close client_fd] }
    else
      -- g_client_count++; std::thread t1(client_handler, client_fd, client_addr); t1.detach();
      { s with g_client_count := s.g_client_count + 1,
               handlers := s.handlers ++ [client_fd],
               events := s.events ++ [.accept client_fd, .thread client_fd] }

/-- The end of `client_handler` for the connection `client_fd`, after its echo
loop broke: `close(client_fd); g_client_count--;`. -/
def handlerEnd (s : Server) (client_fd : Nat) : Server :=
  if client_fd ∈ s.handlers then
    { s with g_client_count := s.g_client_count - 1,
             handlers := s.handlers.erase client_fd,
             events := s.events ++ [.close client_fd] }
  else s

/-- One step of the server: a pass of the accept loop or the end of a handler. -/
inductive Step
  | accept (incoming : Option Nat)
  | finish (client_fd : Nat)
  deriving DecidableEq, Repr

/-- The server after one step. -/
def step (s : Server) : Step → Server
  | .accept incoming => acceptPass s incoming
  | .finish client_fd => handlerEnd s client_fd

/-- The server after the steps given, in order. -/
def run (s : Server) (steps : List Step) : Server := steps.foldl step s

/-- Clients connecting one after the other with the descriptors `first`,
`first + 1`, ..., none of them hanging up. -/
def connects (first count : Nat) : List Step :=
  (List.range count).map (fun i => Step.accept (some (first + i)))

end MultiThread
/-! # Properties

## Lemmas on the buffer -/

namespace MiniRpc

theorem storeU32_length (o : ByteOrder) (v : Nat) : (storeU32 o v).length = 4 := by
  cases o <;> rfl

theorem readBytes_of_append (pre x post buffer : Bytes) (off len : Nat)
    (hbuf : buffer = pre ++ (x ++ post)) (hoff : off = pre.length) (hlen : len = x.length) :
    readBytes buffer off len = some x := by
  subst hbuf hoff hlen
  simp [readBytes, List.drop_left, List.take_left]

theorem loadU32_of_append (o : ByteOrder) (v : Nat) (pre post : Bytes) (buffer : Bytes)
    (off : Nat) (hbuf : buffer = pre ++ (storeU32 o v ++ post)) (hoff : off = pre.length) :
    loadU32 o (readBytes buffer) off = some (v % 2 ^ 32) := by
  simp only [loadU32]
  rw [readBytes_of_append pre (storeU32 o v) post buffer off 4 hbuf hoff
    (storeU32_length o v).symm]
  cases o
  · simp only [storeU32, u32OfBytes, Option.some.injEq]
    omega
  · simp only [storeU32, u32OfBytes, Option.some.injEq]
    omega


theorem encodeRequest_length (o : ByteOrder) (s m p : Bytes) :
    (encodeRequest o s m p).length = 12 + s.length + m.length + p.length := by
  simp [encodeRequest, encodeField, storeU32_length]; omega

theorem recvBuffer_of_fit (rx : Bytes) (h : rx.length ≤ BUFFER_SIZE) :
    recvBuffer (.bytes rx) = rx ++ List.replicate (BUFFER_SIZE - rx.length) 0 := by
  simp [recvBuffer, List.take_of_length_le h]

theorem parse_of_encode (o : ByteOrder) (service_name method_name payload : Bytes)
    (hfit : (encodeRequest o service_name method_name payload).length ≤ BUFFER_SIZE) :
    0 < recvCount (.bytes (encodeRequest o service_name method_name payload)) ∧
    (parseRequest o
        (recvBuffer (.bytes (encodeRequest o service_name method_name payload)))).result
      = some ⟨service_name, method_name, payload⟩ := by
  have hlen := encodeRequest_length o service_name method_name payload
  constructor
  · simp only [recvCount, hlen, BUFFER_SIZE]; omega
  rw [recvBuffer_of_fit _ hfit]
  rw [hlen] at hfit
  simp only [BUFFER_SIZE] at hfit
  generalize hz : List.replicate
    (BUFFER_SIZE - (encodeRequest o service_name method_name payload).length) (0 : Byte) = zeros
  have hs : service_name.length % 2 ^ 32 = service_name.length := Nat.mod_eq_of_lt (by omega)
  have hm : method_name.length % 2 ^ 32 = method_name.length := Nat.mod_eq_of_lt (by omega)
  have hp : payload.length % 2 ^ 32 = payload.length := Nat.mod_eq_of_lt (by omega)
  have r1 := loadU32_of_append o service_name.length []
    (service_name ++ (encodeField o method_name ++ encodeField o payload) ++ zeros)
    (encodeRequest o service_name method_name payload ++ zeros) 0
    (by simp [encodeRequest, encodeField]) rfl
  have r2 := readBytes_of_append (storeU32 o service_name.length) service_name
    ((encodeField o method_name ++ encodeField o payload) ++ zeros)
    (encodeRequest o service_name method_name payload ++ zeros) 4 service_name.length
    (by simp [encodeRequest, encodeField]) (storeU32_length _ _).symm rfl
  have r3 := loadU32_of_append o method_name.length (encodeField o service_name)
    (method_name ++ encodeField o payload ++ zeros)
    (encodeRequest o service_name method_name payload ++ zeros) (4 + service_name.length)
    (by simp [encodeRequest, encodeField]) (by simp [encodeField, storeU32_length])
  have r4 := readBytes_of_append (encodeField o service_name ++ storeU32 o method_name.length)
    method_name (encodeField o payload ++ zeros)
    (encodeRequest o service_name method_name payload ++ zeros)
    (4 + service_name.length + 4) method_name.length
    (by simp [encodeRequest, encodeField]) (by simp [encodeField, storeU32_length]; omega) rfl
  have r5 := loadU32_of_append o payload.length
    (encodeField o service_name ++ encodeField o method_name) (payload ++ zeros)
    (encodeRequest o service_name method_name payload ++ zeros)
    (4 + service_name.length + (4 + method_name.length))
    (by simp [encodeRequest, encodeField]) (by simp [encodeField, storeU32_length]; omega)
  have r6 := readBytes_of_append
    (encodeField o service_name ++ encodeField o method_name ++ storeU32 o payload.length)
    payload zeros
    (encodeRequest o service_name method_name payload ++ zeros)
    (4 + service_name.length + (4 + method_name.length) + 4) payload.length
    (by simp [encodeRequest, encodeField]) (by simp [encodeField, storeU32_length]; omega) rfl
  rw [hs] at r1
  rw [hm] at r3
  rw [hp] at r5
  simp only [parseRequest, parseFields, r1, r2, r3, r4, r5, r6]

theorem length_recvBuffer (rcv : RecvResult) : (recvBuffer rcv).length = BUFFER_SIZE := by
  cases rcv with
  | failed => simp [recvBuffer]
  | bytes rx => simp [recvBuffer, BUFFER_SIZE]; omega

theorem readBytes_recvBuffer (rx : Bytes) :
    readBytes (recvBuffer (.bytes rx)) = readPadded rx := by
  funext off len
  unfold readBytes readPadded
  rw [length_recvBuffer]
  split
  · rename_i h
    congr 1
    apply List.ext_getElem
    · simp [length_recvBuffer]; omega
    · intro i h1 h2
      simp only [List.length_map, List.length_range] at h2
      simp only [List.getElem_take, List.getElem_drop, List.getElem_map, List.getElem_range,
        recvBuffer, List.getElem_append, List.getElem_replicate, List.getD_eq_getElem?_getD]
      split
      · rename_i h3
        simp [List.getElem?_eq_getElem h3]
      · rename_i h3
        simp only [not_lt] at h3
        simp [List.getElem?_eq_none h3]
  · rfl

theorem parseRequest_recvBuffer (o : ByteOrder) (rx : Bytes) :
    parseRequest o (recvBuffer (.bytes rx)) = parseFields o (readPadded rx) := by
  rw [parseRequest, readBytes_recvBuffer]

/-! ## Lemmas on the service map -/

theorem find_append_of_none {κ ν : Type} [DecidableEq κ] (m : StdMap κ ν) (k k' : κ) (v : ν)
    (h : StdMap.find m k = none) :
    StdMap.find (m ++ [(k, v)]) k' = if k = k' then some v else StdMap.find m k' := by
  induction m with
  | nil => simp [StdMap.find]
  | cons e rest ih =>
    obtain ⟨k0, v0⟩ := e
    simp only [StdMap.find] at h
    by_cases h0 : k0 = k
    · simp [h0] at h
    · simp only [h0, if_false] at h
      have ih' := ih h
      simp only [List.cons_append, StdMap.find]
      by_cases h1 : k0 = k'
      · subst h1
        simp [h0, Ne.symm h0]
      · simp only [h1, if_false]
        exact ih'

theorem find_assign {κ ν : Type} [DecidableEq κ] (m : StdMap κ ν) (k k' : κ) (v : ν) :
    StdMap.find (StdMap.assign m k v) k' =
      if k = k' then (StdMap.find m k).map (fun _ => v) else StdMap.find m k' := by
  induction m with
  | nil => simp [StdMap.find, StdMap.assign]
  | cons e rest ih =>
    obtain ⟨k0, v0⟩ := e
    simp only [StdMap.assign]
    by_cases h0 : k0 = k
    · subst h0
      by_cases h1 : k0 = k' <;> simp [StdMap.find, h1]
    · simp only [h0, if_false, StdMap.find, ih]
      by_cases h1 : k0 = k'
      · subst h1
        simp [h0, Ne.symm h0]
      · simp [h1]

/-- The statement `m[k] = v;` as seen by `find`. -/
theorem find_subscript_assign {κ ν : Type} [DecidableEq κ] (m : StdMap κ ν) (k k' : κ)
    (dflt v : ν) :
    StdMap.find (StdMap.assign (StdMap.subscript m k dflt).1 k v) k' =
      if k = k' then some v else StdMap.find m k' := by
  rw [find_assign]
  unfold StdMap.subscript
  cases h : StdMap.find m k with
  | none =>
    simp only [find_append_of_none m k _ dflt h]
    by_cases h1 : k = k' <;> simp [h1]
  | some v0 =>
    by_cases h1 : k = k'
    · subst h1
      simp [h]
    · simp [h1]

theorem subscript_snd {κ ν : Type} [DecidableEq κ] (m : StdMap κ ν) (k : κ) (dflt : ν) :
    (StdMap.subscript m k dflt).2 = (StdMap.find m k).getD dflt := by
  unfold StdMap.subscript
  cases h : StdMap.find m k <;> simp

theorem subscript_of_find {κ ν : Type} [DecidableEq κ] (m : StdMap κ ν) (k : κ) (dflt v : ν)
    (h : StdMap.find m k = some v) : StdMap.subscript m k dflt = (m, v) := by
  simp [StdMap.subscript, h]

theorem resolve_registerMethod {ρ σ : Type} (M : ServiceMap ρ σ) (s : Service ρ σ)
    (mn name m : Bytes) :
    resolve (registerMethod M s mn) name m =
      if s.name = name then (if mn = m then some (some s) else resolve M name m)
      else resolve M name m := by
  unfold resolve registerMethod
  simp only [find_subscript_assign]
  by_cases h : s.name = name
  · subst h
    simp only [if_true, subscript_snd, find_subscript_assign]
    by_cases h1 : mn = m
    · simp [h1]
    · simp only [h1, if_false]
      cases h2 : StdMap.find M s.name <;> simp [StdMap.find]
  · simp [h]

theorem find_registerMethod_ne {ρ σ : Type} (M : ServiceMap ρ σ) (s : Service ρ σ)
    (mn name : Bytes) (h : name ≠ s.name) :
    StdMap.find (registerMethod M s mn) name = StdMap.find M name := by
  unfold registerMethod
  simp only [find_subscript_assign]
  simp [Ne.symm h]

theorem resolve_foldl_registerMethod {ρ σ : Type} (s : Service ρ σ) (methods : List Bytes)
    (M : ServiceMap ρ σ) (m : Bytes) :
    resolve (methods.foldl (fun acc mn => registerMethod acc s mn) M) s.name m =
      if m ∈ methods then some (some s) else resolve M s.name m := by
  induction methods generalizing M with
  | nil => simp
  | cons mn rest ih =>
    simp only [List.foldl_cons, ih, resolve_registerMethod, if_true, List.mem_cons]
    by_cases h1 : m ∈ rest
    · simp [h1]
    · by_cases h2 : mn = m
      · simp [h2]
      · simp [h1, h2, Ne.symm h2]

theorem find_foldl_registerMethod_ne {ρ σ : Type} (s : Service ρ σ) (methods : List Bytes)
    (M : ServiceMap ρ σ) (name : Bytes) (h : name ≠ s.name) :
    StdMap.find (methods.foldl (fun acc mn => registerMethod acc s mn) M) name =
      StdMap.find M name := by
  induction methods generalizing M with
  | nil => rfl
  | cons mn rest ih => simp only [List.foldl_cons, ih, find_registerMethod_ne M s mn name h]

/-! ## Lemmas on `OnMessage` -/

theorem OnMessage_of_unresolved {ρ σ : Type} (o : ByteOrder) (M : ServiceMap ρ σ)
    (connfd : Nat) (rcv : RecvResult) (req : Request)
    (hp : (parseRequest o (recvBuffer rcv)).result = some req)
    (hr : resolve M req.service_name req.method_name = none) :
    (OnMessage o M connfd rcv).events = [Event.recv connfd (recvCount rcv)] ∧
      (OnMessage o M connfd rcv).completion = .returned := by
  unfold OnMessage
  by_cases hn : recvCount rcv ≤ 0
  · simp [hn]
  · simp only [hn, if_false, hp]
    unfold resolve at hr
    cases hf : StdMap.find M req.service_name with
    | none => simp
    | some method_map =>
      simp only [hf] at hr
      simp [subscript_of_find M _ [] method_map hf, hr]

theorem assign_of_find {κ ν : Type} [DecidableEq κ] (m : StdMap κ ν) (k : κ) (v : ν)
    (h : StdMap.find m k = some v) : StdMap.assign m k v = m := by
  induction m with
  | nil => rfl
  | cons e rest ih =>
    obtain ⟨k0, v0⟩ := e
    simp only [StdMap.find] at h
    by_cases h0 : k0 = k
    · simp only [h0, if_true, Option.some.injEq] at h
      simp [StdMap.assign, h0, h]
    · simp only [h0, if_false] at h
      simp [StdMap.assign, h0, ih h]

theorem OnMessage_of_resolved {ρ σ : Type} (o : ByteOrder) (M : ServiceMap ρ σ)
    (connfd : Nat) (rcv : RecvResult) (req : Request) (service : Service ρ σ)
    (hn : 0 < recvCount rcv)
    (hp : (parseRequest o (recvBuffer rcv)).result = some req)
    (hr : resolve M req.service_name req.method_name = some (some service))
    (hm : req.method_name ∈ service.methods) :
    (OnMessage o M connfd rcv).events =
      Event.recv connfd (recvCount rcv) :: Event.New_request :: Event.New_response ::
        match service.ParseFromString req.method_name req.req_data_str with
        | none => [Event.delete_request, Event.delete_response]
        | some request =>
          Event.CallMethod service.addr req.method_name ::
            ((runHandler o service connfd (service.CallMethod req.method_name request)
                (service.ResponsePrototype req.method_name) true).1 ++
              match (runHandler o service connfd (service.CallMethod req.method_name request)
                (service.ResponsePrototype req.method_name) true).2 with
              | .returned => [Event.delete_request]
              | _ => []) := by
  unfold OnMessage
  have hn' : ¬ recvCount rcv ≤ 0 := not_le.mpr hn
  simp only [hn', if_false, hp]
  unfold resolve at hr
  cases hf : StdMap.find M req.service_name with
  | none => simp [hf] at hr
  | some method_map =>
    simp only [hf] at hr
    simp only [subscript_of_find M _ [] method_map hf,
      subscript_of_find method_map _ none (some service) hr, hr, hm, not_true, if_false]
    cases hq : service.ParseFromString req.method_name req.req_data_str with
    | none => simp
    | some request =>
      simp only
      cases hc : (runHandler o service connfd (service.CallMethod req.method_name request)
        (service.ResponsePrototype req.method_name) true) with
      | mk handled completion =>
        cases completion <;> simp

theorem runHandler_Login {ρ : Type} (o : ByteOrder) (service : Service ρ LoginResponse)
    (connfd : Nat) (request : LoginRequest) (response : LoginResponse) :
    runHandler o service connfd (Login request true) response true =
      (SendResponse o service connfd
        (if request.name = "zhangsan" ∧ request.pwd = "123456" then
          { code := 0, msg := "Login successful!" }
         else { code := 1, msg := "Invalid username or password." }), .returned) := by
  unfold Login
  by_cases h : request.name = "zhangsan" ∧ request.pwd = "123456"
  · simp [h, runHandler]
  · simp [h, runHandler]

theorem written_append (connfd : Nat) (a b : List Event) :
    written connfd (a ++ b) = written connfd a ++ written connfd b := by
  induction a with
  | nil => rfl
  | cons e rest ih =>
    cases e with
    | send fd data =>
      simp only [List.cons_append, written]
      split <;> simp [ih]
    | _ => simpa only [List.cons_append, written] using ih

theorem written_SendResponse {ρ σ : Type} (o : ByteOrder) (service : Service ρ σ)
    (connfd : Nat) (response : σ) :
    written connfd (SendResponse o service connfd response) =
      match service.SerializeToString response with
      | none => []
      | some resp_str => encodeField o (resp_str.take (resp_str.length % 2 ^ 32)) := by
  unfold SendResponse
  cases h : service.SerializeToString response with
  | none => simp [written]
  | some resp_str =>
    have hle : resp_str.length % 2 ^ 32 ≤ resp_str.length := Nat.mod_le _ _
    simp only [written, if_true, encodeField, List.length_take, Nat.min_eq_left hle,
      List.append_nil]

theorem readBytes_of_le (buffer : Bytes) (off len : Nat) (h : off + len ≤ buffer.length) :
    readBytes buffer off len = some ((buffer.drop off).take len) := by
  simp [readBytes, h]

theorem readBytes_eq_none (buffer : Bytes) (off len : Nat)
    (h : readBytes buffer off len = none) : buffer.length < off + len := by
  unfold readBytes at h
  split at h
  · cases h
  · omega

theorem loadU32_eq_none (o : ByteOrder) (buffer : Bytes) (off : Nat)
    (h : loadU32 o (readBytes buffer) off = none) : buffer.length < off + 4 := by
  by_contra hlt
  have hle : off + 4 ≤ buffer.length := by omega
  have hlen : ((buffer.drop off).take 4).length = 4 := by
    simp only [List.length_take, List.length_drop]; omega
  unfold loadU32 at h
  rw [readBytes_of_le buffer off 4 hle] at h
  match hq : (buffer.drop off).take 4, hlen with
  | [b0, b1, b2, b3], _ => simp [hq] at h

/-- When every read of the parsing code stays inside the array, the code
builds its three strings from the bytes found at the lengths it loaded. -/
theorem parseRequest_of_fit (o : ByteOrder) (buffer : Bytes)
    (hfit : ∀ e ∈ (parseRequest o buffer).reads, e.1 + e.2 ≤ buffer.length) :
    ∃ a b c : Nat,
      loadU32 o (readBytes buffer) 0 = some a ∧
      loadU32 o (readBytes buffer) (4 + a) = some b ∧
      loadU32 o (readBytes buffer) (4 + a + (4 + b)) = some c ∧
      parseRequest o buffer =
        ⟨[(0, 4), (4, a), (4 + a, 4), (4 + a + 4, b), (4 + a + (4 + b), 4),
            (4 + a + (4 + b) + 4, c)],
          some ⟨(buffer.drop 4).take a, (buffer.drop (4 + a + 4)).take b,
            (buffer.drop (4 + a + (4 + b) + 4)).take c⟩⟩ := by
  unfold parseRequest parseFields at hfit ⊢
  cases h1 : loadU32 o (readBytes buffer) 0 with
  | none =>
    have := loadU32_eq_none o buffer 0 h1
    simp only [h1] at hfit
    have := hfit (0, 4) (by simp)
    simp only at this
    omega
  | some a =>
  simp only [h1] at hfit ⊢
  cases h2 : readBytes buffer 4 a with
  | none =>
    have := readBytes_eq_none buffer 4 a h2
    simp only [h2] at hfit
    have := hfit (4, a) (by simp)
    simp only at this
    omega
  | some service_name =>
  simp only [h2] at hfit ⊢
  cases h3 : loadU32 o (readBytes buffer) (4 + a) with
  | none =>
    have := loadU32_eq_none o buffer (4 + a) h3
    simp only [h3] at hfit
    have := hfit (4 + a, 4) (by simp)
    simp only at this
    omega
  | some b =>
  simp only [h3] at hfit ⊢
  cases h4 : readBytes buffer (4 + a + 4) b with
  | none =>
    have := readBytes_eq_none buffer (4 + a + 4) b h4
    simp only [h4] at hfit
    have := hfit (4 + a + 4, b) (by simp)
    simp only at this
    omega
  | some method_name =>
  simp only [h4] at hfit ⊢
  cases h5 : loadU32 o (readBytes buffer) (4 + a + (4 + b)) with
  | none =>
    have := loadU32_eq_none o buffer (4 + a + (4 + b)) h5
    simp only [h5] at hfit
    have := hfit (4 + a + (4 + b), 4) (by simp)
    simp only at this
    omega
  | some c =>
  simp only [h5] at hfit ⊢
  cases h6 : readBytes buffer (4 + a + (4 + b) + 4) c with
  | none =>
    have := readBytes_eq_none buffer (4 + a + (4 + b) + 4) c h6
    simp only [h6] at hfit
    have := hfit (4 + a + (4 + b) + 4, c) (by simp)
    simp only at this
    omega
  | some req_data_str =>
  simp only [h6] at hfit ⊢
  refine ⟨a, b, c, rfl, h3, h5, ?_⟩
  have e2 := readBytes_of_le buffer 4 a (by have := hfit (4, a) (by simp); simpa using this)
  have e4 := readBytes_of_le buffer (4 + a + 4) b
    (by have := hfit (4 + a + 4, b) (by simp); simpa using this)
  have e6 := readBytes_of_le buffer (4 + a + (4 + b) + 4) c
    (by have := hfit (4 + a + (4 + b) + 4, c) (by simp); simpa using this)
  rw [h2] at e2
  rw [h4] at e4
  rw [h6] at e6
  cases e2
  cases e4
  cases e6
  rfl

theorem recvBuffer_zero_fill (rcv : RecvResult) (i : Nat) (hn : recvCount rcv ≤ (i : Int))
    (hi : i < BUFFER_SIZE) : (recvBuffer rcv)[i]? = some 0 := by
  cases rcv with
  | failed => simp [recvBuffer, List.getElem?_replicate, hi]
  | bytes rx =>
    simp only [recvCount, Nat.cast_le] at hn
    simp only [recvBuffer]
    rw [List.getElem?_append_right (by simp only [List.length_take]; omega)]
    simp only [List.length_take, List.getElem?_replicate, BUFFER_SIZE] at *
    rw [if_pos (by omega)]

/-- After a positive `recv` count and a parse that built its strings,
`OnMessage` looks the pair up, and what it does next is fixed by the lookup. -/
theorem OnMessage_events_of_parse {ρ σ : Type} (o : ByteOrder) (M : ServiceMap ρ σ)
    (connfd : Nat) (rcv : RecvResult) (req : Request)
    (hn : 0 < recvCount rcv)
    (hp : (parseRequest o (recvBuffer rcv)).result = some req) :
    (OnMessage o M connfd rcv).events =
      match resolve M req.service_name req.method_name with
      | some (some service) =>
        if req.method_name ∈ service.methods then
          Event.recv connfd (recvCount rcv) :: Event.New_request :: Event.New_response ::
            match service.ParseFromString req.method_name req.req_data_str with
            | none => [Event.delete_request, Event.delete_response]
            | some request =>
              Event.CallMethod service.addr req.method_name ::
                ((runHandler o service connfd (service.CallMethod req.method_name request)
                    (service.ResponsePrototype req.method_name) true).1 ++
                  match (runHandler o service connfd
                    (service.CallMethod req.method_name request)
                    (service.ResponsePrototype req.method_name) true).2 with
                  | .returned => [Event.delete_request]
                  | _ => [])
        else [Event.recv connfd (recvCount rcv)]
      | _ => [Event.recv connfd (recvCount rcv)] := by
  cases hres : resolve M req.service_name req.method_name with
  | none => exact (OnMessage_of_unresolved o M connfd rcv req hp hres).1
  | some found =>
    cases found with
    | some service =>
      by_cases hm : req.method_name ∈ service.methods
      · simp only [hm, if_true]
        exact OnMessage_of_resolved o M connfd rcv req service hn hp hres hm
      · simp only [hm, if_false]
        unfold OnMessage
        have hn' : ¬ recvCount rcv ≤ 0 := not_le.mpr hn
        simp only [hn', if_false, hp]
        unfold resolve at hres
        cases hf : StdMap.find M req.service_name with
        | none => simp [hf] at hres
        | some method_map =>
          simp only [hf] at hres
          simp only [subscript_of_find M _ [] method_map hf,
            subscript_of_find method_map _ none (some service) hres, hres, hm,
            not_false_eq_true, if_true]
    | none =>
      simp only
      unfold OnMessage
      have hn' : ¬ recvCount rcv ≤ 0 := not_le.mpr hn
      simp only [hn', if_false, hp]
      unfold resolve at hres
      cases hf : StdMap.find M req.service_name with
      | none => simp [hf] at hres
      | some method_map =>
        simp only [hf] at hres
        simp only [subscript_of_find M _ [] method_map hf,
          subscript_of_find method_map _ none none hres, hres]

/-! ## Request framing -/

/-- C1: round trip of the request frame. For every service name, method name
and payload whose encoding (three fields in that order, each a 4-byte length in
the byte order of the host followed by exactly that many bytes) fits in the
4096-byte receive buffer, `recv` gives a positive count and the parsing code
of `RpcProvider::OnMessage` yields exactly the three original strings. -/
theorem request_frame_round_trip (o : ByteOrder) (service_name method_name payload : Bytes)
    (hfit : (encodeRequest o service_name method_name payload).length ≤ BUFFER_SIZE) :
    0 < recvCount (.bytes (encodeRequest o service_name method_name payload)) ∧
    (parseRequest o
        (recvBuffer (.bytes (encodeRequest o service_name method_name payload)))).result
      = some ⟨service_name, method_name, payload⟩ :=
  parse_of_encode o service_name method_name payload hfit

/-- C1, at a concrete frame: service name `[1, 2]`, method name `[3]`, payload
`[4, 5, 6]` on a big-endian host. -/
theorem request_frame_round_trip_witness :
    (encodeRequest .big [1, 2] [3] [4, 5, 6]).length ≤ BUFFER_SIZE ∧
    (0 < recvCount (.bytes (encodeRequest .big [1, 2] [3] [4, 5, 6])) ∧
     (parseRequest .big (recvBuffer (.bytes (encodeRequest .big [1, 2] [3] [4, 5, 6])))).result
       = some ⟨[1, 2], [3], [4, 5, 6]⟩) :=
  ⟨by decide, request_frame_round_trip .big [1, 2] [3] [4, 5, 6] (by decide)⟩

/-- C2, refuted as stated: on a little-endian host, the frame `truncatedFrame`
has 29 bytes and declares a payload of 2 bytes at offsets 28 and 29. The
parsing code reports no error: it reads the 2 bytes at offset 28, beyond the
29 bytes received, builds the three strings, and `OnMessage` calls the
handler and sends a response. -/
theorem truncated_frame_is_served :
    recvCount (.bytes truncatedFrame) = 29 ∧
    parseRequest .little (recvBuffer (.bytes truncatedFrame)) =
      ⟨[(0, 4), (4, 11), (15, 4), (19, 5), (24, 4), (28, 2)],
        some ⟨ascii "UserService", ascii "Login", [97, 0]⟩⟩ ∧
    29 < 28 + 2 ∧
    Event.CallMethod 1 (ascii "Login") ∈
      (OnMessage .little demoMap 7 (.bytes truncatedFrame)).events ∧
    written 7 (OnMessage .little demoMap 7 (.bytes truncatedFrame)).events ≠ [] := by
  refine ⟨by decide, ?_, by decide, ?_, ?_⟩
  · rw [parseRequest_recvBuffer]; decide
  · simp only [OnMessage, parseRequest_recvBuffer]; decide
  · simp only [OnMessage, parseRequest_recvBuffer]; decide

/-- C2, amended: `OnMessage` never compares a declared length with the count
`n` that `recv` returned. Whenever `n` is positive and all reads of the
parsing code stay inside the 4096-byte buffer, whether or not a declared
length asks for more than the `n` bytes received, the code reports no error
and builds the three strings from the buffer at the lengths it loaded, every
byte of the buffer at an offset from `n` on being the zero of the
initialiser; `OnMessage` then goes on to the lookup with these strings: it
stops after its `recv` only when the lookup finds no usable entry, and
otherwise creates the two messages and dispatches as for a complete frame. -/
theorem parse_ignores_received_count {ρ σ : Type} (o : ByteOrder)
    (service_map_ : ServiceMap ρ σ) (connfd : Nat) (rcv : RecvResult)
    (hn : 0 < recvCount rcv)
    (hfit : ∀ e ∈ (parseRequest o (recvBuffer rcv)).reads, e.1 + e.2 ≤ BUFFER_SIZE) :
    (∃ (a b c : Nat) (req : Request),
      loadU32 o (readBytes (recvBuffer rcv)) 0 = some a ∧
      loadU32 o (readBytes (recvBuffer rcv)) (4 + a) = some b ∧
      loadU32 o (readBytes (recvBuffer rcv)) (4 + a + (4 + b)) = some c ∧
      req = ⟨((recvBuffer rcv).drop 4).take a, ((recvBuffer rcv).drop (4 + a + 4)).take b,
              ((recvBuffer rcv).drop (4 + a + (4 + b) + 4)).take c⟩ ∧
      parseRequest o (recvBuffer rcv) =
        ⟨[(0, 4), (4, a), (4 + a, 4), (4 + a + 4, b), (4 + a + (4 + b), 4),
            (4 + a + (4 + b) + 4, c)], some req⟩ ∧
      (OnMessage o service_map_ connfd rcv).events =
        match resolve service_map_ req.service_name req.method_name with
        | some (some service) =>
          if req.method_name ∈ service.methods then
            Event.recv connfd (recvCount rcv) :: Event.New_request :: Event.New_response ::
              match service.ParseFromString req.method_name req.req_data_str with
              | none => [Event.delete_request, Event.delete_response]
              | some request =>
                Event.CallMethod service.addr req.method_name ::
                  ((runHandler o service connfd (service.CallMethod req.method_name request)
                      (service.ResponsePrototype req.method_name) true).1 ++
                    match (runHandler o service connfd
                      (service.CallMethod req.method_name request)
                      (service.ResponsePrototype req.method_name) true).2 with
                    | .returned => [Event.delete_request]
                    | _ => [])
          else [Event.recv connfd (recvCount rcv)]
        | _ => [Event.recv connfd (recvCount rcv)]) ∧
    (∀ i : Nat, recvCount rcv ≤ (i : Int) → i < BUFFER_SIZE → (recvBuffer rcv)[i]? = some 0) := by
  obtain ⟨a, b, c, h1, h2, h3, hparse⟩ :=
    parseRequest_of_fit o (recvBuffer rcv) (by rw [length_recvBuffer]; exact hfit)
  refine ⟨⟨a, b, c, _, h1, h2, h3, rfl, hparse, ?_⟩,
    fun i hi hlt => recvBuffer_zero_fill rcv i hi hlt⟩
  exact OnMessage_events_of_parse o service_map_ connfd rcv _ hn (by rw [hparse])

/-- C2, amended, at the frame `truncatedFrame` on connection 7 of a
little-endian host, with the map of the examples: the count is 29, all six
reads stay inside the buffer, and the request is dispatched to `Login`. -/
theorem parse_ignores_received_count_witness :
    0 < recvCount (.bytes truncatedFrame) ∧
    (∀ e ∈ (parseRequest .little (recvBuffer (.bytes truncatedFrame))).reads,
      e.1 + e.2 ≤ BUFFER_SIZE) ∧
    Event.CallMethod 1 (ascii "Login")
      ∈ (OnMessage .little demoMap 7 (.bytes truncatedFrame)).events := by
  have hn : 0 < recvCount (.bytes truncatedFrame) := by decide
  have hfit : ∀ e ∈ (parseRequest .little (recvBuffer (.bytes truncatedFrame))).reads,
      e.1 + e.2 ≤ BUFFER_SIZE := by
    rw [parseRequest_recvBuffer]; decide
  have hconcrete : (parseRequest .little (recvBuffer (.bytes truncatedFrame))).result
      = some ⟨ascii "UserService", ascii "Login", [97, 0]⟩ := by
    rw [parseRequest_recvBuffer]; decide
  have hres : resolve demoMap (ascii "UserService") (ascii "Login")
      = some (some (demoService 1)) :=
    (resolve_foldl_registerMethod (demoService 1) (demoService 1).methods []
      (ascii "Login")).trans (if_pos (by decide))
  have hm : ascii "Login" ∈ (demoService 1).methods := by decide
  have hq : (demoService 1).ParseFromString (ascii "Login") [97, 0] = some ⟨"a", ""⟩ := by
    decide
  obtain ⟨_, _, _, req, _, _, _, _, hparse, hevents⟩ :=
    (parse_ignores_received_count .little demoMap 7 (.bytes truncatedFrame) hn hfit).1
  rw [hparse] at hconcrete
  cases hconcrete
  simp only [hres, hm, if_true, hq] at hevents
  refine ⟨hn, hfit, ?_⟩
  rw [hevents]
  exact List.mem_cons_of_mem _ (List.mem_cons_of_mem _ (List.mem_cons_of_mem _
    (List.mem_cons_self _ _)))

/-! ## The service map -/

/-- C3: registration then resolution. After `NotifyService(s)`, every method
listed in the descriptor of `s` resolves, under the name of `s`, to the
object `s`; the entry of every other service name is what it was before. -/
theorem NotifyService_then_resolve {ρ σ : Type} (service_map_ : ServiceMap ρ σ)
    (s : Service ρ σ) :
    (∀ m ∈ s.methods, resolve (NotifyService service_map_ s) s.name m = some (some s)) ∧
    (∀ name : Bytes, name ≠ s.name →
      StdMap.find (NotifyService service_map_ s) name = StdMap.find service_map_ name) := by
  constructor
  · intro m hm
    simp [NotifyService, resolve_foldl_registerMethod, hm]
  · intro name hne
    exact find_foldl_registerMethod_ne s s.methods service_map_ name hne

/-- C4, refuted as stated: after `NotifyService` on the object at address 1 and
then on the object at address 2, both named `UserService` with the method
`Login`, the pair resolves to the second object; the first one is no longer
reachable through the map. -/
theorem second_registration_replaces_first :
    (resolve (NotifyService (NotifyService [] (demoService 1)) (demoService 2))
        (ascii "UserService") (ascii "Login")).map (Option.map Service.addr) = some (some 2) ∧
    (resolve (NotifyService [] (demoService 1))
        (ascii "UserService") (ascii "Login")).map (Option.map Service.addr) = some (some 1) := by
  constructor <;> decide

/-- C4, amended: `NotifyService` returns nothing and refuses nothing; when a
(service name, method name) pair is registered a second time, the second
registration replaces the first, and the pair resolves to the service object
of the second call. -/
theorem NotifyService_twice_last_wins {ρ σ : Type} (service_map_ : ServiceMap ρ σ)
    (first second : Service ρ σ) (m : Bytes) (hname : second.name = first.name)
    (hfirst : m ∈ first.methods) (hsecond : m ∈ second.methods) :
    resolve (NotifyService service_map_ first) first.name m = some (some first) ∧
    resolve (NotifyService (NotifyService service_map_ first) second) first.name m
      = some (some second) := by
  constructor
  · simp [NotifyService, resolve_foldl_registerMethod, hfirst]
  · rw [← hname]
    simp [NotifyService, resolve_foldl_registerMethod, hsecond]

/-- C4, amended, at the two `UserServiceImpl` objects of addresses 1 and 2. -/
theorem NotifyService_twice_last_wins_witness :
    (demoService 2).name = (demoService 1).name ∧
    ascii "Login" ∈ (demoService 1).methods ∧ ascii "Login" ∈ (demoService 2).methods ∧
    (resolve (NotifyService [] (demoService 1)) (demoService 1).name (ascii "Login")
      = some (some (demoService 1)) ∧
     resolve (NotifyService (NotifyService [] (demoService 1)) (demoService 2))
        (demoService 1).name (ascii "Login") = some (some (demoService 2))) :=
  ⟨rfl, by decide, by decide,
    NotifyService_twice_last_wins [] (demoService 1) (demoService 2) (ascii "Login") rfl
      (by decide) (by decide)⟩

/-- C5: a request whose (service name, method name) pair is not in the service
map, the service being unknown or the method unknown in a known service, is
not dispatched. `OnMessage` does nothing but its `recv` call and returns: it
creates no request or response object and does not reach `CallMethod`. -/
theorem OnMessage_unregistered_not_dispatched {ρ σ : Type} (o : ByteOrder)
    (service_map_ : ServiceMap ρ σ) (connfd : Nat) (rcv : RecvResult) (req : Request)
    (hparse : (parseRequest o (recvBuffer rcv)).result = some req)
    (hnone : resolve service_map_ req.service_name req.method_name = none) :
    (OnMessage o service_map_ connfd rcv).events = [Event.recv connfd (recvCount rcv)] ∧
    (OnMessage o service_map_ connfd rcv).completion = .returned ∧
    (∀ service method_name,
      Event.CallMethod service method_name ∉ (OnMessage o service_map_ connfd rcv).events) ∧
    Event.New_request ∉ (OnMessage o service_map_ connfd rcv).events ∧
    Event.New_response ∉ (OnMessage o service_map_ connfd rcv).events := by
  obtain ⟨he, hc⟩ := OnMessage_of_unresolved o service_map_ connfd rcv req hparse hnone
  refine ⟨he, hc, ?_, ?_, ?_⟩ <;> simp [he]

/-- C5, at a complete frame for `UserService`/`Logout` on a little-endian host:
the service is registered, the method is not. -/
theorem OnMessage_unregistered_not_dispatched_witness :
    (parseRequest .little (recvBuffer (.bytes
        [11, 0, 0, 0, 85, 115, 101, 114, 83, 101, 114, 118, 105, 99, 101,
         6, 0, 0, 0, 76, 111, 103, 111, 117, 116, 1, 0, 0, 0, 0]))).result
      = some ⟨ascii "UserService", ascii "Logout", [0]⟩ ∧
    resolve demoMap (ascii "UserService") (ascii "Logout") = none ∧
    ((OnMessage .little demoMap 7 (.bytes
        [11, 0, 0, 0, 85, 115, 101, 114, 83, 101, 114, 118, 105, 99, 101,
         6, 0, 0, 0, 76, 111, 103, 111, 117, 116, 1, 0, 0, 0, 0])).events
      = [Event.recv 7 (recvCount (.bytes
        [11, 0, 0, 0, 85, 115, 101, 114, 83, 101, 114, 118, 105, 99, 101,
         6, 0, 0, 0, 76, 111, 103, 111, 117, 116, 1, 0, 0, 0, 0]))]) :=
  have hparse : (parseRequest .little (recvBuffer (.bytes
        [11, 0, 0, 0, 85, 115, 101, 114, 83, 101, 114, 118, 105, 99, 101,
         6, 0, 0, 0, 76, 111, 103, 111, 117, 116, 1, 0, 0, 0, 0]))).result
      = some ⟨ascii "UserService", ascii "Logout", [0]⟩ := by
    rw [parseRequest_recvBuffer]; decide
  have hnone : resolve demoMap (ascii "UserService") (ascii "Logout") = none :=
    (resolve_foldl_registerMethod (demoService 1) (demoService 1).methods []
      (ascii "Logout")).trans (if_neg (by decide))
  ⟨hparse, hnone,
    (OnMessage_unregistered_not_dispatched .little demoMap 7 _ _ hparse hnone).1⟩

theorem OnMessage_map_of_unresolved {ρ σ : Type} (o : ByteOrder) (M : ServiceMap ρ σ)
    (connfd : Nat) (rcv : RecvResult) (req : Request)
    (hp : (parseRequest o (recvBuffer rcv)).result = some req)
    (hr : resolve M req.service_name req.method_name = none) :
    (OnMessage o M connfd rcv).service_map_ = M := by
  unfold OnMessage
  by_cases hn : recvCount rcv ≤ 0
  · simp [hn]
  · simp only [hn, if_false, hp]
    unfold resolve at hr
    cases hf : StdMap.find M req.service_name with
    | none => simp
    | some method_map =>
      simp only [hf] at hr
      simp [subscript_of_find M _ [] method_map hf, hr]

theorem recvCalls_append (connfd : Nat) (a b : List Event) :
    recvCalls connfd (a ++ b) = recvCalls connfd a + recvCalls connfd b := by
  induction a with
  | nil => simp [recvCalls]
  | cons e rest ih =>
    cases e with
    | recv fd n =>
      simp only [List.cons_append, recvCalls]
      split <;> simp [ih]
      omega
    | _ => simpa only [List.cons_append, recvCalls] using ih

theorem recvCalls_SendResponse {ρ σ : Type} (o : ByteOrder) (service : Service ρ σ)
    (connfd fd : Nat) (response : σ) :
    recvCalls fd (SendResponse o service connfd response) = 0 := by
  unfold SendResponse
  split <;> simp [recvCalls]

theorem recvCalls_runHandler {ρ σ : Type} (o : ByteOrder) (service : Service ρ σ)
    (connfd fd : Nat) (actions : List (HandlerAction σ)) (response : σ) (pending : Bool) :
    recvCalls fd (runHandler o service connfd actions response pending).1 = 0 := by
  induction actions generalizing response pending with
  | nil => simp [runHandler, recvCalls]
  | cons a rest ih =>
    cases a with
    | write f =>
      simp only [runHandler]
      split
      · exact ih _ _
      · simp [recvCalls]
    | Run =>
      simp only [runHandler]
      split
      · simp [recvCalls_append, recvCalls_SendResponse, ih]
      · simp [recvCalls]
    | raise => simp [runHandler, recvCalls]

theorem recvCalls_OnMessage {ρ σ : Type} (o : ByteOrder) (M : ServiceMap ρ σ)
    (connfd : Nat) (rcv : RecvResult) :
    recvCalls connfd (OnMessage o M connfd rcv).events = 1 := by
  unfold OnMessage
  simp only
  repeat' split
  all_goals simp [recvCalls, recvCalls_append, recvCalls_runHandler]

theorem recvCount_of_fit (rx : Bytes) (h : rx.length ≤ BUFFER_SIZE) :
    recvCount (.bytes rx) = (rx.length : Int) := by
  simp [recvCount, Nat.min_eq_left h]

theorem resolve_of_find_none {ρ σ : Type} (M : ServiceMap ρ σ) (s m : Bytes)
    (h : StdMap.find M s = none) : resolve M s m = none := by
  simp [resolve, h]

/-! ## One request on one connection -/

/-- C6, refuted as stated: on a little-endian host the complete frame
`unknownServiceFrame` names the service `Auth`, which is not registered. The
server sends nothing on the connection and closes it at once; the `Login`
request that follows on the same connection is never read. -/
theorem unknown_service_closed_without_response :
    unknownServiceFrame = encodeRequest .little (ascii "Auth") (ascii "Login") [0] ∧
    (Run .little demoMap [.conn 7 [.bytes unknownServiceFrame, .bytes loginFrame]]).events
      = [Event.accept 7, Event.recv 7 22, Event.close 7] ∧
    written 7
      (Run .little demoMap [.conn 7 [.bytes unknownServiceFrame, .bytes loginFrame]]).events
      = [] := by
  refine ⟨by decide, ?_, ?_⟩
  · simp only [Run, OnMessage, parseRequest_recvBuffer]; decide
  · simp only [Run, OnMessage, parseRequest_recvBuffer]; decide

/-- C6, amended: for every well-formed request frame that names an
unregistered service, the server writes nothing on that connection: after the
single `recv`, `OnMessage` returns and `Run` closes the connection and goes
back to `accept`, whatever else the peer sends on it. -/
theorem Run_unknown_service {ρ σ : Type} (o : ByteOrder) (service_map_ : ServiceMap ρ σ)
    (connfd : Nat) (service_name method_name payload : Bytes) (more : List RecvResult)
    (rest : List AcceptResult)
    (hfit : (encodeRequest o service_name method_name payload).length ≤ BUFFER_SIZE)
    (hunknown : StdMap.find service_map_ service_name = none) :
    (Run o service_map_
        (.conn connfd (.bytes (encodeRequest o service_name method_name payload) :: more)
          :: rest)).events
      = Event.accept connfd ::
          Event.recv connfd (encodeRequest o service_name method_name payload).length ::
          Event.close connfd :: (Run o service_map_ rest).events ∧
    written connfd
        (Run o service_map_
          [.conn connfd (.bytes (encodeRequest o service_name method_name payload) :: more)]
        ).events = [] := by
  obtain ⟨_, hparse⟩ := parse_of_encode o service_name method_name payload hfit
  have hres := resolve_of_find_none service_map_ service_name method_name hunknown
  obtain ⟨he, hc⟩ := OnMessage_of_unresolved o service_map_ connfd _ _ hparse hres
  have hm := OnMessage_map_of_unresolved o service_map_ connfd _ _ hparse hres
  rw [recvCount_of_fit _ hfit] at he
  constructor
  · simp only [Run, hc, he, hm, List.cons_append, List.nil_append]
  · simp only [Run, hc, he, List.cons_append, List.nil_append, written]

/-- C6, amended, at the frame for the unregistered service `Auth`. -/
theorem Run_unknown_service_witness :
    (encodeRequest .little (ascii "Auth") (ascii "Login") [0]).length ≤ BUFFER_SIZE ∧
    StdMap.find demoMap (ascii "Auth") = none ∧
    written 7
        (Run .little demoMap
          [.conn 7 (.bytes (encodeRequest .little (ascii "Auth") (ascii "Login") [0])
            :: [.bytes loginFrame])]).events = [] :=
  have hunknown : StdMap.find demoMap (ascii "Auth") = none :=
    find_foldl_registerMethod_ne (demoService 1) (demoService 1).methods [] (ascii "Auth")
      (by decide)
  ⟨by decide, hunknown,
    (Run_unknown_service .little demoMap 7 (ascii "Auth") (ascii "Login") [0]
      [.bytes loginFrame] [] (by decide) hunknown).2⟩

/-- C7, refuted as stated: two well-formed request frames that get no response
frame at all. The first names an unregistered service; the second names
`UserService`/`Login` with a payload that does not parse as the request type. -/
theorem well_formed_frames_without_response :
    unknownServiceFrame = encodeRequest .little (ascii "Auth") (ascii "Login") [0] ∧
    written 7 (OnMessage .little demoMap 7 (.bytes unknownServiceFrame)).events = [] ∧
    unparsableFrame
      = encodeRequest .little (ascii "UserService") (ascii "Login") [97, 98, 99] ∧
    written 7 (OnMessage .little demoMap 7 (.bytes unparsableFrame)).events = [] := by
  refine ⟨by decide, ?_, by decide, ?_⟩
  · simp only [OnMessage, parseRequest_recvBuffer]; decide
  · simp only [OnMessage, parseRequest_recvBuffer]; decide

/-- C7, amended: for every well-formed request frame, `OnMessage` with the
handler `UserServiceImpl::Login` writes at most one response frame. It writes
none when the pair is not registered, when the payload does not parse as the
request type, or when the response does not serialise; otherwise it writes
exactly one frame, holding the serialised response. -/
theorem OnMessage_response_frames (o : ByteOrder)
    (service_map_ : ServiceMap LoginRequest LoginResponse) (connfd : Nat)
    (service_name method_name payload : Bytes)
    (hfit : (encodeRequest o service_name method_name payload).length ≤ BUFFER_SIZE) :
    (resolve service_map_ service_name method_name = none →
      written connfd (OnMessage o service_map_ connfd
        (.bytes (encodeRequest o service_name method_name payload))).events = []) ∧
    (∀ (addr : Nat) (name : Bytes) (parse : Bytes → Option LoginRequest)
        (serialize : LoginResponse → Option Bytes),
      resolve service_map_ service_name method_name
        = some (some (UserServiceImpl addr name parse serialize)) →
      method_name = ascii "Login" →
      written connfd (OnMessage o service_map_ connfd
        (.bytes (encodeRequest o service_name method_name payload))).events =
        match parse payload with
        | none => []
        | some request =>
          match serialize
            (if request.name = "zhangsan" ∧ request.pwd = "123456" then
              { code := 0, msg := "Login successful!" }
             else { code := 1, msg := "Invalid username or password." }) with
          | none => []
          | some resp_str => encodeField o (resp_str.take (resp_str.length % 2 ^ 32))) := by
  obtain ⟨hn, hparse⟩ := parse_of_encode o service_name method_name payload hfit
  constructor
  · intro hres
    rw [(OnMessage_of_unresolved o service_map_ connfd _ _ hparse hres).1]
    rfl
  · intro addr name parse serialize hres hlogin
    rw [OnMessage_of_resolved o service_map_ connfd _ _ _ hn hparse hres
      (by simp [UserServiceImpl, hlogin])]
    simp only [UserServiceImpl]
    cases hq : parse payload with
    | none => simp [written]
    | some request =>
      simp only [runHandler_Login, written, written_append, written_SendResponse]
      split <;> simp [written]

/-- C7, amended, at a `Login` request with the payload `zhangsan`, zero,
`123456`: one frame of 4 + 18 bytes is written, holding the code 0 and the
message of a successful login. -/
theorem OnMessage_response_frames_witness :
    (encodeRequest .little (ascii "UserService") (ascii "Login")
      (ascii "zhangsan" ++ [0] ++ ascii "123456")).length ≤ BUFFER_SIZE ∧
    written 7 (OnMessage .little demoMap 7
        (.bytes (encodeRequest .little (ascii "UserService") (ascii "Login")
          (ascii "zhangsan" ++ [0] ++ ascii "123456")))).events
      = encodeField .little (0 :: ascii "Login successful!") :=
  ⟨by decide,
    ((OnMessage_response_frames .little demoMap 7 (ascii "UserService") (ascii "Login")
        (ascii "zhangsan" ++ [0] ++ ascii "123456") (by decide)).2
      1 (ascii "UserService") demoParse demoSerialize
      ((resolve_foldl_registerMethod (demoService 1) (demoService 1).methods []
        (ascii "Login")).trans (if_pos (by decide)))
      rfl).trans (by decide)⟩

/-- C8, refuted as stated: two valid `Login` requests arrive one after the
other on connection 7. The server calls `recv` once, answers the first request
with one frame and closes the connection; the second request is never read and
gets no response. -/
theorem second_request_never_read :
    (Run .little demoMap [.conn 7 [.bytes loginFrame, .bytes loginFrame]]).events =
      [Event.accept 7, Event.recv 7 43, Event.New_request, Event.New_response,
        Event.CallMethod 1 (ascii "Login"),
        Event.send 7 [18, 0, 0, 0], Event.send 7 (0 :: ascii "Login successful!"),
        Event.delete_response, Event.delete_request, Event.close 7] ∧
    (Run .little demoMap [.conn 7 [.bytes loginFrame, .bytes loginFrame]]).completion
      = .blocked := by
  constructor
  · simp only [Run, OnMessage, parseRequest_recvBuffer]; decide
  · simp only [Run, OnMessage, parseRequest_recvBuffer]; decide

/-- C8, amended: a connection is served for one `recv` only. `Run` calls
`OnMessage` once for an accepted connection, and when `OnMessage` returns it
closes the connection before the next `accept`; what the peer sends after the
first chunk is never read, so of two requests sent back to back on one
connection only the first can be answered. -/
theorem Run_one_recv_per_connection {ρ σ : Type} (o : ByteOrder)
    (service_map_ : ServiceMap ρ σ) (connfd : Nat) (rcv : RecvResult)
    (more : List RecvResult) :
    (Run o service_map_ [.conn connfd (rcv :: more)]).events
      = (Run o service_map_ [.conn connfd [rcv]]).events ∧
    recvCalls connfd (Run o service_map_ [.conn connfd (rcv :: more)]).events = 1 ∧
    (Run o service_map_ [.conn connfd (rcv :: more)]).events
      = Event.accept connfd :: ((OnMessage o service_map_ connfd rcv).events ++
          if (OnMessage o service_map_ connfd rcv).completion = .returned
          then [Event.close connfd] else []) := by
  have hrun : ∀ l : List RecvResult,
      (Run o service_map_ [.conn connfd (rcv :: l)]).events
        = Event.accept connfd :: ((OnMessage o service_map_ connfd rcv).events ++
            if (OnMessage o service_map_ connfd rcv).completion = .returned
            then [Event.close connfd] else []) := by
    intro l
    simp only [Run]
    cases hc : (OnMessage o service_map_ connfd rcv).completion <;> simp
  refine ⟨by rw [hrun more, hrun []], ?_, hrun more⟩
  rw [hrun more]
  simp only [recvCalls, recvCalls_append, recvCalls_OnMessage]
  split <;> simp [recvCalls]

/-! ## Response framing -/

/-- C9: response framing. For every response whose serialisation `p` is shorter
than 2^32 bytes, `SendResponse` hands to `send` the 4 bytes of the length of
`p` and then the bytes of `p`, 4 + |p| bytes in all and nothing else; the
length is stored in the byte order in which the parsing code of `OnMessage`
loads lengths, so that this code reads the length and the bytes back. -/
theorem SendResponse_writes_one_frame {ρ σ : Type} (o : ByteOrder) (service : Service ρ σ)
    (connfd : Nat) (response : σ) (p : Bytes)
    (hser : service.SerializeToString response = some p) (hlen : p.length < 2 ^ 32) :
    SendResponse o service connfd response
      = [Event.send connfd (storeU32 o p.length), Event.send connfd p,
          Event.delete_response] ∧
    written connfd (SendResponse o service connfd response) = storeU32 o p.length ++ p ∧
    (written connfd (SendResponse o service connfd response)).length = 4 + p.length ∧
    loadU32 o (readBytes (written connfd (SendResponse o service connfd response))) 0
      = some p.length ∧
    readBytes (written connfd (SendResponse o service connfd response)) 4 p.length
      = some p := by
  have hmod : p.length % 2 ^ 32 = p.length := Nat.mod_eq_of_lt hlen
  have hsend : SendResponse o service connfd response
      = [Event.send connfd (storeU32 o p.length), Event.send connfd p,
          Event.delete_response] := by
    simp only [SendResponse, hser, hmod, List.take_length]
  have hw : written connfd (SendResponse o service connfd response)
      = storeU32 o p.length ++ p := by
    simp [hsend, written]
  refine ⟨hsend, hw, ?_, ?_, ?_⟩
  · simp [hw, storeU32_length]
  · have := loadU32_of_append o p.length [] p (storeU32 o p.length ++ p) 0 (by simp) rfl
    rw [hw, this, hmod]
  · exact hw ▸ readBytes_of_append (storeU32 o p.length) p [] _ 4 p.length (by simp)
      (storeU32_length o _).symm rfl

/-- C9, at the `UserServiceImpl` object of the examples and the response with
code 0 and message `ok`, on a big-endian host. -/
theorem SendResponse_writes_one_frame_witness :
    (demoService 1).SerializeToString ⟨0, "ok"⟩ = some [0, 111, 107] ∧
    ([0, 111, 107] : Bytes).length < 2 ^ 32 ∧
    written 7 (SendResponse .big (demoService 1) 7 ⟨0, "ok"⟩) = [0, 0, 0, 3, 0, 111, 107] :=
  ⟨by decide, by decide,
    (SendResponse_writes_one_frame .big (demoService 1) 7 ⟨0, "ok"⟩ [0, 111, 107]
      (by decide) (by decide)).2.1⟩

theorem runHandler_raise {ρ σ : Type} (o : ByteOrder) (service : Service ρ σ) (connfd : Nat)
    (writes : List (σ → σ)) (rest : List (HandlerAction σ)) (response : σ) :
    runHandler o service connfd (writes.map HandlerAction.write ++ .raise :: rest) response true
      = ([], .threw) := by
  induction writes generalizing response with
  | nil => simp [runHandler]
  | cons f fs ih => simp [runHandler, ih]

theorem OnMessage_keeps_map {ρ σ : Type} (o : ByteOrder) (M : ServiceMap ρ σ)
    (connfd : Nat) (rcv : RecvResult) : (OnMessage o M connfd rcv).service_map_ = M := by
  unfold OnMessage
  by_cases hn : recvCount rcv ≤ 0
  · simp [hn]
  simp only [hn, if_false]
  cases hp : (parseRequest o (recvBuffer rcv)).result with
  | none => rfl
  | some req =>
  simp only
  cases hf : StdMap.find M req.service_name with
  | none => rfl
  | some method_map =>
  simp only [subscript_of_find M _ [] method_map hf]
  cases hg : StdMap.find method_map req.method_name with
  | none => rfl
  | some service =>
  simp only [subscript_of_find method_map _ none service hg,
    assign_of_find M _ method_map hf]
  cases service with
  | none => rfl
  | some service =>
  simp only
  split
  · rfl
  · split
    · rfl
    · split <;> rfl

/-! ## Handlers -/

/-- C14, refuted as stated: the handler of the only registered method throws.
`OnMessage` sends nothing and does not return: the exception leaves it, and
it leaves `Run` as well, before `close` and before the next `accept`; the
second connection is never accepted. -/
theorem handler_exception_leaves_Run :
    (OnMessage .little (NotifyService [] (throwingService 1)) 7 (.bytes loginFrame)).events
      = [Event.recv 7 43, Event.New_request, Event.New_response,
          Event.CallMethod 1 (ascii "Login")] ∧
    (OnMessage .little (NotifyService [] (throwingService 1)) 7 (.bytes loginFrame)).completion
      = .threw ∧
    (Run .little (NotifyService [] (throwingService 1))
        [.conn 7 [.bytes loginFrame], .conn 8 [.bytes loginFrame]]).events
      = [Event.accept 7, Event.recv 7 43, Event.New_request, Event.New_response,
          Event.CallMethod 1 (ascii "Login")] ∧
    (Run .little (NotifyService [] (throwingService 1))
        [.conn 7 [.bytes loginFrame], .conn 8 [.bytes loginFrame]]).completion = .threw := by
  refine ⟨?_, ?_, ?_, ?_⟩ <;>
    (simp only [Run, OnMessage, parseRequest_recvBuffer]; decide)

/-- C14, amended: `OnMessage` has no exception handling. When the handler of a
registered method throws before it runs `done`, `OnMessage` sends no response
frame and the exception leaves it, the request object not being deleted; the
exception then leaves `Run` too, which neither closes the connection nor goes
back to `accept`. -/
theorem handler_exception_escapes {ρ σ : Type} (o : ByteOrder)
    (service_map_ : ServiceMap ρ σ) (connfd : Nat) (rcv : RecvResult) (req : Request)
    (service : Service ρ σ) (request : ρ) (writes : List (σ → σ))
    (rest : List (HandlerAction σ)) (more : List RecvResult) (others : List AcceptResult)
    (hn : 0 < recvCount rcv)
    (hparse : (parseRequest o (recvBuffer rcv)).result = some req)
    (hres : resolve service_map_ req.service_name req.method_name = some (some service))
    (hmethod : req.method_name ∈ service.methods)
    (hreq : service.ParseFromString req.method_name req.req_data_str = some request)
    (hthrow : service.CallMethod req.method_name request
      = writes.map HandlerAction.write ++ .raise :: rest) :
    (OnMessage o service_map_ connfd rcv).events
      = [Event.recv connfd (recvCount rcv), Event.New_request, Event.New_response,
          Event.CallMethod service.addr req.method_name] ∧
    (OnMessage o service_map_ connfd rcv).completion = .threw ∧
    written connfd (OnMessage o service_map_ connfd rcv).events = [] ∧
    (Run o service_map_ (.conn connfd (rcv :: more) :: others)).events
      = Event.accept connfd :: (OnMessage o service_map_ connfd rcv).events ∧
    (Run o service_map_ (.conn connfd (rcv :: more) :: others)).completion = .threw := by
  have he := OnMessage_of_resolved o service_map_ connfd rcv req service hn hparse hres hmethod
  simp only [hreq, hthrow, runHandler_raise, List.nil_append] at he
  have hc : (OnMessage o service_map_ connfd rcv).completion = .threw := by
    unfold OnMessage
    have hn' : ¬ recvCount rcv ≤ 0 := not_le.mpr hn
    simp only [hn', if_false, hparse]
    unfold resolve at hres
    cases hf : StdMap.find service_map_ req.service_name with
    | none => simp [hf] at hres
    | some method_map =>
      simp only [hf] at hres
      simp only [subscript_of_find service_map_ _ [] method_map hf,
        subscript_of_find method_map _ none (some service) hres, hres, hmethod, not_true,
        if_false, hreq, hthrow, runHandler_raise]
  refine ⟨he, hc, ?_, ?_, ?_⟩
  · simp [he, written]
  · simp only [Run, hc]
  · simp only [Run, hc]

/-- C14, amended, at the service whose `Login` handler throws, for the request
`loginFrame` on connection 7 of a little-endian host. -/
theorem handler_exception_escapes_witness :
    0 < recvCount (.bytes loginFrame) ∧
    (parseRequest .little (recvBuffer (.bytes loginFrame))).result
      = some ⟨ascii "UserService", ascii "Login", ascii "zhangsan" ++ [0] ++ ascii "123456"⟩ ∧
    resolve (NotifyService [] (throwingService 1)) (ascii "UserService") (ascii "Login")
      = some (some (throwingService 1)) ∧
    (OnMessage .little (NotifyService [] (throwingService 1)) 7 (.bytes loginFrame)).completion
      = .threw ∧
    written 7
      (OnMessage .little (NotifyService [] (throwingService 1)) 7 (.bytes loginFrame)).events
      = [] :=
  have hn : 0 < recvCount (.bytes loginFrame) := by decide
  have hparse : (parseRequest .little (recvBuffer (.bytes loginFrame))).result
      = some ⟨ascii "UserService", ascii "Login",
          ascii "zhangsan" ++ [0] ++ ascii "123456"⟩ := by
    rw [parseRequest_recvBuffer]; decide
  have hres : resolve (NotifyService [] (throwingService 1)) (ascii "UserService")
      (ascii "Login") = some (some (throwingService 1)) :=
    (resolve_foldl_registerMethod (throwingService 1) (throwingService 1).methods []
      (ascii "Login")).trans (if_pos (by decide))
  have h := handler_exception_escapes .little (NotifyService [] (throwingService 1)) 7
    (.bytes loginFrame) _ (throwingService 1) ⟨"zhangsan", "123456"⟩ [] [] [] []
    hn hparse hres (by decide) (by decide) rfl
  ⟨hn, hparse, hres, h.2.1, h.2.2.1⟩

/-- C15: the service map is read-only while serving. Whatever `recv` gives
(nothing, a frame for a registered or an unregistered service or method, a
payload that parses or not) and whatever the handler does, `OnMessage` leaves
`service_map_` exactly as it was: both `operator[]` calls come after a `find`
that succeeded, so neither inserts an entry. -/
theorem OnMessage_leaves_service_map {ρ σ : Type} (o : ByteOrder)
    (service_map_ : ServiceMap ρ σ) (connfd : Nat) (rcv : RecvResult) :
    (OnMessage o service_map_ connfd rcv).service_map_ = service_map_ ∧
    (∀ service_name : Bytes,
      StdMap.find (OnMessage o service_map_ connfd rcv).service_map_ service_name
        = StdMap.find service_map_ service_name) ∧
    (OnMessage o service_map_ connfd rcv).service_map_.length = service_map_.length := by
  rw [OnMessage_keeps_map]
  exact ⟨rfl, fun _ => rfl, rfl⟩

/-- C18: `UserServiceImpl::Login` decides on the credentials alone. It makes
two writes to the response and then, when `done` is not null, runs `done`
once and does nothing more. After the two writes the response has code 0 and
message `Login successful!` if and only if the name is `zhangsan` and the
password `123456`; otherwise it has code 1 and message
`Invalid username or password.`. With the `done` that `OnMessage` passes, the
response handed to `SendResponse` is this decided response. -/
theorem Login_decides_on_credentials (request : LoginRequest) (done_set : Bool) :
    ∃ set_code set_msg : LoginResponse → LoginResponse,
      Login request done_set
        = [.write set_code, .write set_msg] ++ (if done_set then [.Run] else []) ∧
      (∀ response : LoginResponse,
        set_msg (set_code response)
          = if request.name = "zhangsan" ∧ request.pwd = "123456"
            then ⟨0, "Login successful!"⟩ else ⟨1, "Invalid username or password."⟩) ∧
      (∀ response : LoginResponse,
        ((set_msg (set_code response)).code = 0 ∧
            (set_msg (set_code response)).msg = "Login successful!")
          ↔ (request.name = "zhangsan" ∧ request.pwd = "123456")) ∧
      (∀ (ρ : Type) (o : ByteOrder) (service : Service ρ LoginResponse) (connfd : Nat)
          (response : LoginResponse),
        runHandler o service connfd (Login request true) response true
          = (SendResponse o service connfd (set_msg (set_code response)), .returned)) := by
  by_cases h : request.name = "zhangsan" ∧ request.pwd = "123456"
  · refine ⟨fun response => { response with code := 0 },
      fun response => { response with msg := "Login successful!" }, ?_, ?_, ?_, ?_⟩
    · simp [Login, h]
    · intro response; simp [h]
    · intro response; simp [h]
    · intro ρ o service connfd response
      rw [runHandler_Login]; simp [h]
  · refine ⟨fun response => { response with code := 1 },
      fun response => { response with msg := "Invalid username or password." }, ?_, ?_, ?_, ?_⟩
    · simp [Login, h]
    · intro response; simp [h]
    · intro response; simp [h]
    · intro ρ o service connfd response
      rw [runHandler_Login]; simp [h]

end MiniRpc

/-! ## The worker queue -/

namespace Pool

theorem worker_of_running {Job : Type} (f : Job) (rest : List Job) :
    worker (⟨f :: rest, false⟩ : ThreadPool Job) = (⟨rest, false⟩, .task f) := by
  simp [worker]

theorem worker_cases {Job : Type} (pool : ThreadPool Job) :
    (∃ f rest, pool.jobs = f :: rest ∧ worker pool = ({ pool with jobs := rest }, .task f)) ∨
    ((worker pool).1 = pool ∧ ∀ f, (worker pool).2 ≠ .task f) := by
  obtain ⟨jobs, stop⟩ := pool
  cases stop with
  | true =>
    right
    cases jobs <;> simp [worker]
  | false =>
    cases jobs with
    | nil => right; simp [worker]
    | cons f rest => left; exact ⟨f, rest, rfl, by simp [worker]⟩

theorem runOps_taken_append_jobs {Job : Type} (ops : List (Op Job)) (pool : ThreadPool Job) :
    (runOps pool ops).2.map Prod.snd ++ (runOps pool ops).1.jobs
      = pool.jobs ++ enqueued ops := by
  induction ops generalizing pool with
  | nil => simp [runOps, enqueued]
  | cons op ops ih =>
    cases op with
    | enqueue f => simp [runOps, enqueued, ih, enqueue]
    | submit job => simp [runOps, enqueued, ih, submit]
    | destroy => simp [runOps, enqueued, ih, destroy]
    | worker i =>
      rcases worker_cases pool with ⟨f, rest, hjobs, hw⟩ | ⟨hsame, hno⟩
      · simp only [runOps, hw, enqueued, List.map_cons, List.cons_append, ih, hjobs]
      · simp only [runOps, enqueued]
        cases hw : worker pool with
        | mk pool1 taken =>
          rw [hw] at hsame hno
          simp only at hsame hno
          subst hsame
          cases taken with
          | task f => exact absurd rfl (hno f)
          | waits => exact ih pool1
          | exits => exact ih pool1

/-- C10: the worker queue is first in, first out. Starting from the pool as
either constructor leaves it (`stop{false}` in `thread_pool.h`, a `stop` of
any value in the demo, whose constructor does not initialise it), after any
sequence of `enqueue` and `submit` calls, worker passes and the destructor
setting `stop`, the tasks taken by the workers, in the order taken, followed
by the tasks still queued, are exactly the tasks passed to `enqueue` or
`submit`, in the order passed: the k-th task taken is the k-th task passed, and
a task once taken is no longer in the queue. While `stop` is unset, a worker
that finds the queue non-empty takes the task at its front, and a call of
`enqueue` or `submit` leaves `stop` unset. -/
theorem worker_queue_fifo {Job : Type} (stop : Bool) (ops : List (Op Job)) :
    (ThreadPool.create : ThreadPool Job) = ThreadPool.createDemo false ∧
    (runOps (ThreadPool.createDemo stop) ops).2.map Prod.snd ++
        (runOps (ThreadPool.createDemo stop) ops).1.jobs
      = enqueued ops ∧
    (∀ k : Nat, k < (runOps (ThreadPool.createDemo stop) ops).2.length →
      ((runOps (ThreadPool.createDemo stop) ops).2.map Prod.snd)[k]? = (enqueued ops)[k]?) ∧
    (∀ (f : Job) (rest : List Job),
      worker (⟨f :: rest, false⟩ : ThreadPool Job) = (⟨rest, false⟩, .task f)) ∧
    (∀ (jobs : List Job) (f : Job),
      enqueue (⟨jobs, false⟩ : ThreadPool Job) f = ⟨jobs ++ [f], false⟩ ∧
      submit (⟨jobs, false⟩ : ThreadPool Job) f = ⟨jobs ++ [f], false⟩) := by
  have h := runOps_taken_append_jobs ops (ThreadPool.createDemo stop : ThreadPool Job)
  have hcreate : (ThreadPool.createDemo stop : ThreadPool Job).jobs = [] := rfl
  rw [hcreate, List.nil_append] at h
  refine ⟨rfl, h, ?_, worker_of_running, fun jobs f => ⟨rfl, rfl⟩⟩
  intro k hk
  rw [← h, List.getElem?_append_left (by simpa using hk)]

theorem worker_of_stop {Job : Type} (pool : ThreadPool Job) (h : pool.stop = true) :
    worker pool = (pool, .exits) := by
  simp [worker, h]

theorem worker_exits_iff {Job : Type} (pool : ThreadPool Job) :
    (worker pool).2 = .exits ↔ pool.stop = true := by
  constructor
  · intro h
    rcases worker_cases pool with ⟨f, rest, _, hw⟩ | ⟨_, _⟩
    · rw [hw] at h; cases h
    · by_contra hs
      simp only [Bool.not_eq_true] at hs
      unfold worker at h
      simp only [hs, Bool.or_false, Bool.not_not] at h
      cases hj : pool.jobs <;> simp [hj] at h
  · intro h
    rw [worker_of_stop pool h]

theorem runOps_workers_of_stop {Job : Type} (pool : ThreadPool Job) (h : pool.stop = true)
    (workers : List Nat) : runOps pool (workers.map Op.worker) = (pool, []) := by
  induction workers with
  | nil => rfl
  | cons i rest ih => simp only [List.map_cons, runOps, worker_of_stop pool h, ih]

/-- C11, refuted as stated: two tasks are enqueued, then the destructor sets
`stop`. Each of the four workers then exits on its next pass without taking
anything, and both tasks are still in the queue, never run. -/
theorem stopped_pool_keeps_queued_tasks :
    worker (⟨[1, 2], true⟩ : ThreadPool Nat) = (⟨[1, 2], true⟩, .exits) ∧
    runOps (ThreadPool.create : ThreadPool Nat)
        [.enqueue 1, .enqueue 2, .destroy, .worker 0, .worker 1, .worker 2, .worker 3]
      = (⟨[1, 2], true⟩, []) := by
  constructor <;> decide

/-- C11, amended: a worker terminates only when the stop flag is set, and it
terminates as soon as it sees the flag, whether the queue is empty or not.
In every pool state with the flag set, a worker's next step exits without
taking anything, so the tasks queued when the destructor sets the flag stay
in the queue, unexecuted, however many worker passes follow. -/
theorem worker_exits_on_stop {Job : Type} (pool : ThreadPool Job) (workers : List Nat) :
    ((worker pool).2 = .exits ↔ pool.stop = true) ∧
    worker (destroy pool) = (destroy pool, .exits) ∧
    (destroy pool).jobs = pool.jobs ∧
    runOps (destroy pool) (workers.map Op.worker) = (destroy pool, []) :=
  ⟨worker_exits_iff pool, worker_of_stop (destroy pool) rfl, rfl,
    runOps_workers_of_stop (destroy pool) rfl workers⟩

/-- C12, refuted as stated: on a pool whose stop flag is set, `enqueue` and
`submit` put the task at the back of the queue; they return nothing. -/
theorem stopped_pool_accepts_task :
    enqueue (⟨[1], true⟩ : ThreadPool Nat) 2 = ⟨[1, 2], true⟩ ∧
    submit (⟨[1], true⟩ : ThreadPool Nat) 2 = ⟨[1, 2], true⟩ := by
  constructor <;> decide

/-- C12, amended: `enqueue` and `submit` do not look at the stop flag and
report nothing. On a pool whose flag is set the task is appended to the queue
like any other, and it stays there: every worker pass that follows exits
without taking it. -/
theorem enqueue_ignores_stop {Job : Type} (pool : ThreadPool Job) (f : Job)
    (workers : List Nat) (hstop : pool.stop = true) :
    enqueue pool f = ⟨pool.jobs ++ [f], true⟩ ∧
    submit pool f = ⟨pool.jobs ++ [f], true⟩ ∧
    runOps (enqueue pool f) (workers.map Op.worker) = (⟨pool.jobs ++ [f], true⟩, []) := by
  have he : enqueue pool f = ⟨pool.jobs ++ [f], true⟩ := by simp [enqueue, hstop]
  refine ⟨he, by simp [submit, hstop], ?_⟩
  rw [he]
  exact runOps_workers_of_stop _ rfl workers

/-- C12, amended, at the pool holding task 1 with the flag set, task 2 being
submitted and workers 0 and 1 passing afterwards. -/
theorem enqueue_ignores_stop_witness :
    (⟨[1], true⟩ : ThreadPool Nat).stop = true ∧
    runOps (enqueue (⟨[1], true⟩ : ThreadPool Nat) 2) ([0, 1].map Op.worker)
      = (⟨[1, 2], true⟩, []) :=
  ⟨rfl, (enqueue_ignores_stop (⟨[1], true⟩ : ThreadPool Nat) 2 [0, 1] rfl).2.2⟩

end Pool

/-! ## The echo task -/

namespace PoolServer

open MiniRpc (Bytes RecvResult Completion)

theorem recvBuffer_take (chunk : Bytes) (h : chunk.length ≤ BUFFER_SIZE) :
    (recvBuffer (.bytes chunk)).take chunk.length = chunk := by
  simp only [recvBuffer, List.take_of_length_le h]
  exact List.take_left _ _

theorem echoLoop_chunks (client_fd : Nat) (chunks : List Bytes) (last : RecvResult)
    (rest : List RecvResult)
    (hchunks : ∀ chunk ∈ chunks, 0 < chunk.length ∧ chunk.length ≤ BUFFER_SIZE)
    (hlast : recvCount last ≤ 0) :
    echoLoop client_fd (chunks.map RecvResult.bytes ++ last :: rest)
      = (expectedEcho client_fd chunks ++ [Event.recv client_fd (recvCount last)],
          .returned) := by
  induction chunks with
  | nil => simp [echoLoop, hlast, expectedEcho]
  | cons chunk chunks ih =>
    have hc := hchunks chunk (List.mem_cons_self _ _)
    have ih' := ih (fun c hmem => hchunks c (List.mem_cons_of_mem _ hmem))
    have hcount : recvCount (.bytes chunk) = (chunk.length : Nat) := by
      simp [recvCount, Nat.min_eq_left hc.2]
    have hpos : ¬ ((chunk.length : Nat) : Int) ≤ 0 := by
      have := hc.1
      omega
    simp only [List.map_cons, List.cons_append, echoLoop, hcount, hpos, if_false,
      Int.toNat_ofNat, recvBuffer_take chunk hc.2, expectedEcho, List.append_eq]
    rw [ih']

/-- C16: the echo handler of the thread-pool server. For every sequence of
reads that starts with chunks of k > 0 bytes (at most `BUFFER_SIZE` each, as
`recv` gives) and then has a read returning 0 or a negative value,
`client_handler_task` sends back each chunk, exactly its bytes and in the
order received; at that read it stops, whatever would still come, closes the
connection once, and leaves `g_client_count` at the value it had before the
task started. -/
theorem client_handler_task_echoes (g_client_count : Int) (client_fd : Nat)
    (chunks : List Bytes) (last : RecvResult) (rest : List RecvResult)
    (hchunks : ∀ chunk ∈ chunks, 0 < chunk.length ∧ chunk.length ≤ BUFFER_SIZE)
    (hlast : recvCount last ≤ 0) :
    client_handler_task g_client_count client_fd (chunks.map RecvResult.bytes ++ last :: rest)
      = ⟨g_client_count,
          expectedEcho client_fd chunks ++
            [Event.recv client_fd (recvCount last), Event.close client_fd],
          .returned⟩ ∧
    ((client_handler_task g_client_count client_fd
        (chunks.map RecvResult.bytes ++ last :: rest)).events.filter
          (fun e => e = Event.close client_fd)).length = 1 := by
  have hrun : client_handler_task g_client_count client_fd
      (chunks.map RecvResult.bytes ++ last :: rest)
      = ⟨g_client_count,
          expectedEcho client_fd chunks ++
            [Event.recv client_fd (recvCount last), Event.close client_fd],
          .returned⟩ := by
    simp only [client_handler_task, echoLoop_chunks client_fd chunks last rest hchunks hlast,
      List.append_assoc, List.cons_append, List.nil_append, add_sub_cancel_right]
  refine ⟨hrun, ?_⟩
  rw [hrun]
  have hecho : ∀ cs : List Bytes,
      (expectedEcho client_fd cs).filter (fun e => e = Event.close client_fd) = [] := by
    intro cs
    induction cs with
    | nil => rfl
    | cons c cs ih => simp [expectedEcho, ih]
  simp [List.filter_append, hecho]

/-- C16, at the reads `abc`, `d`, end of stream, on connection 9 with the
counter at 3; a further chunk that the peer would send is not read. -/
theorem client_handler_task_echoes_witness :
    (∀ chunk ∈ ([[97, 98, 99], [100]] : List Bytes),
      0 < chunk.length ∧ chunk.length ≤ BUFFER_SIZE) ∧
    recvCount (.bytes []) ≤ 0 ∧
    client_handler_task 3 9 [.bytes [97, 98, 99], .bytes [100], .bytes [], .bytes [101]]
      = ⟨3, [.recv 9 3, .send 9 [97, 98, 99], .recv 9 1, .send 9 [100], .recv 9 0, .close 9],
          .returned⟩ :=
  ⟨by decide, by decide,
    (client_handler_task_echoes 3 9 [[97, 98, 99], [100]] (.bytes []) [.bytes [101]]
      (by decide) (by decide)).1⟩

end PoolServer

/-! ## The multi-thread server -/

namespace MultiThread

theorem acceptPass_count_le (s : Server) (incoming : Option Nat)
    (h : s.g_client_count ≤ THREAD_LIMIT + 1) :
    (acceptPass s incoming).g_client_count ≤ THREAD_LIMIT + 1 := by
  unfold acceptPass
  by_cases hx : s.exited = true
  · simp only [hx, if_true]; exact h
  · simp only [hx, if_false]
    generalize (if s.listening = true then incoming else none) = client_fd
    cases client_fd with
    | none => exact h
    | some client_fd =>
      by_cases hgt : s.g_client_count > THREAD_LIMIT
      · simp only [hgt, if_true]; exact h
      · simp only [hgt, if_false, Bool.false_eq_true]
        omega

theorem handlerEnd_count_le (s : Server) (client_fd : Nat)
    (h : s.g_client_count ≤ THREAD_LIMIT + 1) :
    (handlerEnd s client_fd).g_client_count ≤ THREAD_LIMIT + 1 := by
  unfold handlerEnd
  split
  · simp only; omega
  · exact h

/-- In every state the server reaches, the counter is at most `THREAD_LIMIT + 1`. -/
theorem run_count_le (steps : List Step) (s : Server)
    (h : s.g_client_count ≤ THREAD_LIMIT + 1) :
    (run s steps).g_client_count ≤ THREAD_LIMIT + 1 := by
  induction steps generalizing s with
  | nil => exact h
  | cons st rest ih =>
    simp only [run, List.foldl_cons]
    apply ih
    cases st with
    | accept incoming => exact acceptPass_count_le s incoming h
    | finish client_fd => exact handlerEnd_count_le s client_fd h

/-- C13, the code at the failing input: twelve clients connect and stay. The
twelfth finds the counter at 11 and is rejected: no thread is started for it
and nothing is sent to it, but `close(sockfd)` has closed the listening
socket too. The next pass of the loop finds `accept` failing and calls
`exit(1)`, which ends the eleven handlers of the admitted connections. -/
theorem rejection_closes_listening_socket :
    (run Server.start (connects 4 11)).listening = true ∧
    (run Server.start (connects 4 12)).events.drop 22
      = [.accept 15, .close_sockfd, .close 15] ∧
    (run Server.start (connects 4 12)).listening = false ∧
    (run Server.start (connects 4 12)).handlers = [4, 5, 6, 7, 8, 9, 10, 11, 12, 13, 14] ∧
    (run Server.start (connects 4 13)).events.drop 25
      = [.accept (-1), .close_sockfd, .close (-1), .exit] ∧
    (run Server.start (connects 4 13)).exited = true ∧
    (run Server.start (connects 4 13)).handlers = [] := by
  decide

/-- C17, the code at the failing input: eleven clients connect and stay. The
eleventh arrives while `THREAD_LIMIT` handlers are in flight; the test
`g_client_count > THREAD_LIMIT` lets it pass, a thread is started for it and
the counter reaches 11. -/
theorem eleven_handlers_in_flight :
    (run Server.start (connects 4 10)).g_client_count = THREAD_LIMIT ∧
    (run Server.start (connects 4 10)).handlers.length = 10 ∧
    (acceptPass (run Server.start (connects 4 10)) (some 14)).events.drop 20
      = [.accept 14, .thread 14] ∧
    (run Server.start (connects 4 11)).g_client_count = 11 ∧
    (run Server.start (connects 4 11)).handlers.length = 11 ∧
    THREAD_LIMIT < (run Server.start (connects 4 11)).g_client_count := by
  decide

end MultiThread
